import Mathlib

/-!
Verification development for the structural differencing and refactoring-plan
engine of the `domcp` repository.  The definitions below are a shallow
embedding of `src/domain/mod.rs` (`to_snake`), `src/domain/model.rs` (the data
model) and `src/domain/diff.rs` (`diff_models`, `diff_context`, `diff_entity`,
`diff_service`, `plan_refactoring`, `resolve_path`), translated function by
function from the Rust source.  Mutable `Vec::push` accumulation is rendered
as list concatenation in the source's emission order; the repeated
"find by case-insensitive name, else added/removed" loops are rendered through
one `reconcile` combinator instantiated per collection, each instantiation
matching the corresponding pair of loops in the source exactly.
-/

namespace Domcp

/-- Single-quote character as a string; used to reconstruct the `'{}'` pieces
of the source's format strings. -/
def sq : String := String.mk [Char.ofNat 39]

/-- Display rendering of a boolean, as Rust's `{}` for `bool`. -/
def boolStr (b : Bool) : String := if b then "true" else "false"

/-- Rust `str::eq_ignore_ascii_case`, modelled character-wise (ASCII letters
are folded, every other character compares raw; `Char.toLower` in core folds
exactly the ASCII uppercase range, matching `u8::to_ascii_lowercase`). -/
def eq_ignore_ascii_case (a b : String) : Bool :=
  a.data.map Char.toLower == b.data.map Char.toLower

/-- Lowercased rendering of a string under the same ASCII folding; two strings
are `eq_ignore_ascii_case` exactly when their `ascii_lower` images agree. -/
def ascii_lower (s : String) : String := String.mk (s.data.map Char.toLower)

/-- Check that the first list is a leading segment of the second
(Rust `str::starts_with` at character level). -/
def listLeads : List Char → List Char → Bool
  | [], _ => true
  | _ :: _, [] => false
  | a :: as_, b :: bs => a == b && listLeads as_ bs

/-- Rust `str::contains` for a literal pattern, at character level. -/
def containsSeq : List Char → List Char → Bool
  | [], pat => pat.isEmpty
  | h :: t, pat => listLeads pat (h :: t) || containsSeq t pat

/-- Rust `str::contains` on strings. -/
def containsStr (s pat : String) : Bool := containsSeq s.data pat.data

/-- Rust `str::starts_with` on strings. -/
def startsWithStr (s pre : String) : Bool := listLeads pre.data s.data

/-- Rust `str::split('.')`: cut a character list at every dot.  The result is
never empty and the empty input yields one empty segment, as in Rust. -/
def splitDotL : List Char → List (List Char)
  | [] => [[]]
  | c :: t =>
    if c == '.' then [] :: splitDotL t
    else
      match splitDotL t with
      | [] => [[c]]
      | s :: rest => (c :: s) :: rest

/-- Rust `path.split('.').collect::<Vec<_>>()` on strings. -/
def split_dot (s : String) : List String := (splitDotL s.data).map String.mk

/-- Fuel-indexed worker for `replaceStr`; each step consumes at least one
character of the haystack, so haystack length is always enough fuel. -/
def replaceGo : Nat → List Char → List Char → List Char → List Char
  | 0, _, _, _ => []
  | Nat.succ _, [], _, _ => []
  | Nat.succ n, h :: t, pat, rep =>
    if pat ≠ [] ∧ listLeads pat (h :: t) then
      rep ++ replaceGo n (t.drop (pat.length - 1)) pat rep
    else
      h :: replaceGo n t pat rep

/-- Rust `str::replace` for a non-empty literal pattern (the source only ever
replaces the literal placeholders `{context}`, `{layer}`, `{type}`). -/
def replaceStr (s pat rep : String) : String :=
  String.mk (replaceGo s.data.length s.data pat.data rep.data)

/-- Worker for `to_snake`: walks the characters with the previous character in
hand (so `prev.isSome` is the source's `i > 0`) and the next character seen by
look-ahead into the tail, mirroring `src/domain/mod.rs` lines 6-20.  Character
classification is `Char.isUpper`/`Char.isLower`, the ASCII restriction of the
source's Unicode classes; every input in this development is ASCII. -/
def snakeGo : Option Char → List Char → List Char
  | _, [] => []
  | prev, c :: rest =>
    let prevLower : Bool := match prev with | some p => p.isLower | none => false
    let nextLower : Bool := match rest with | c2 :: _ => c2.isLower | [] => false
    (if c.isUpper && prev.isSome && (prevLower || nextLower)
     then ['_', c.toLower] else [c.toLower]) ++ snakeGo (some c) rest

/-- Convert PascalCase / camelCase to snake_case (`to_snake` in
`src/domain/mod.rs`). -/
def to_snake (s : String) : String := String.mk (snakeGo none s.data)

/-! ### Data model (`src/domain/model.rs`) -/

structure Field where
  name : String
  field_type : String
  required : Bool
  description : String
deriving DecidableEq

structure Method where
  name : String
  description : String
  parameters : List Field
  return_type : String
deriving DecidableEq

structure Entity where
  name : String
  description : String
  aggregate_root : Bool
  fields : List Field
  methods : List Method
  invariants : List String
deriving DecidableEq

structure ValueObject where
  name : String
  description : String
  fields : List Field
  validation_rules : List String
deriving DecidableEq

inductive ServiceKind where
  | Domain
  | Application
  | Infrastructure
deriving DecidableEq

structure Service where
  name : String
  description : String
  kind : ServiceKind
  methods : List Method
  dependencies : List String
deriving DecidableEq

structure Repository where
  name : String
  aggregate : String
  methods : List Method
deriving DecidableEq

structure DomainEvent where
  name : String
  description : String
  fields : List Field
  source : String
deriving DecidableEq

inductive Severity where
  | Error
  | Warning
  | Info
deriving DecidableEq

structure ArchitecturalRule where
  id : String
  description : String
  severity : Severity
  scope : String
deriving DecidableEq

structure TechStack where
  language : String
  framework : String
  database : String
  messaging : String
  additional : List String
deriving DecidableEq

structure NamingConventions where
  entities : String
  value_objects : String
  services : String
  repositories : String
  events : String
deriving DecidableEq

structure FileStructure where
  pattern : String
  layers : List String
deriving DecidableEq

structure Conventions where
  naming : NamingConventions
  file_structure : FileStructure
  error_handling : String
  testing : String
deriving DecidableEq

structure BoundedContext where
  name : String
  description : String
  module_path : String
  entities : List Entity
  value_objects : List ValueObject
  services : List Service
  repositories : List Repository
  events : List DomainEvent
  dependencies : List String
deriving DecidableEq

structure DomainModel where
  name : String
  description : String
  bounded_contexts : List BoundedContext
  rules : List ArchitecturalRule
  tech_stack : TechStack
  conventions : Conventions
deriving DecidableEq

/-- Debug rendering of `Severity` (Rust's `format!("{:?}", severity)`). -/
def severityDebug : Severity → String
  | .Error => "Error"
  | .Warning => "Warning"
  | .Info => "Info"

/-- Debug rendering of `ServiceKind` (Rust's `format!("{:?}", kind)`). -/
def serviceKindDebug : ServiceKind → String
  | .Domain => "Domain"
  | .Application => "Application"
  | .Infrastructure => "Infrastructure"

/-! ### JSON values (`serde_json::Value`, restricted to the shapes the differ
actually constructs: strings, booleans, arrays and objects). -/

inductive Json where
  | str : String → Json
  | bool : Bool → Json
  | arr : List Json → Json
  | obj : List (String × Json) → Json

/-- Rust `serde_json::Value::as_str`. -/
def Json.asStr : Json → Option String
  | .str s => some s
  | _ => none

/-- Serde serialization of `Field` (field `field_type` is renamed `type`). -/
def fieldJson (f : Field) : Json :=
  .obj [("name", .str f.name), ("type", .str f.field_type),
        ("required", .bool f.required), ("description", .str f.description)]

/-- Serde serialization of `Method`. -/
def methodJson (m : Method) : Json :=
  .obj [("name", .str m.name), ("description", .str m.description),
        ("parameters", .arr (m.parameters.map fieldJson)),
        ("return_type", .str m.return_type)]

/-- Serde serialization of `Entity`. -/
def entityJson (e : Entity) : Json :=
  .obj [("name", .str e.name), ("description", .str e.description),
        ("aggregate_root", .bool e.aggregate_root),
        ("fields", .arr (e.fields.map fieldJson)),
        ("methods", .arr (e.methods.map methodJson)),
        ("invariants", .arr (e.invariants.map .str))]

/-- Serde serialization of `ServiceKind` (snake_case rename). -/
def serviceKindJson : ServiceKind → Json
  | .Domain => .str "domain"
  | .Application => .str "application"
  | .Infrastructure => .str "infrastructure"

/-- Serde serialization of `Service`. -/
def serviceJson (s : Service) : Json :=
  .obj [("name", .str s.name), ("description", .str s.description),
        ("kind", serviceKindJson s.kind),
        ("methods", .arr (s.methods.map methodJson)),
        ("dependencies", .arr (s.dependencies.map .str))]

/-- Serde serialization of `ValueObject`. -/
def valueObjectJson (v : ValueObject) : Json :=
  .obj [("name", .str v.name), ("description", .str v.description),
        ("fields", .arr (v.fields.map fieldJson)),
        ("validation_rules", .arr (v.validation_rules.map .str))]

/-- Serde serialization of `Repository`. -/
def repositoryJson (r : Repository) : Json :=
  .obj [("name", .str r.name), ("aggregate", .str r.aggregate),
        ("methods", .arr (r.methods.map methodJson))]

/-- Serde serialization of `DomainEvent`. -/
def eventJson (e : DomainEvent) : Json :=
  .obj [("name", .str e.name), ("description", .str e.description),
        ("fields", .arr (e.fields.map fieldJson)),
        ("source", .str e.source)]

/-- Serde serialization of `Severity` (snake_case rename). -/
def severityJson : Severity → Json
  | .Error => .str "error"
  | .Warning => .str "warning"
  | .Info => .str "info"

/-- Serde serialization of `ArchitecturalRule`. -/
def ruleJson (r : ArchitecturalRule) : Json :=
  .obj [("id", .str r.id), ("description", .str r.description),
        ("severity", severityJson r.severity), ("scope", .str r.scope)]

/-! ### Change records (`src/domain/diff.rs` lines 7-63). -/

inductive ChangeKind where
  | Added
  | Removed
  | Modified
  | Moved
deriving DecidableEq

structure ModelChange where
  kind : ChangeKind
  path : String
  description : String
  before : Option Json
  after : Option Json

inductive ActionKind where
  | CreateFile
  | ModifyFile
  | DeleteFile
  | MoveFile
  | UpdateImports
  | AddTest
deriving DecidableEq

inductive Priority where
  | Critical
  | High
  | Medium
  | Low
deriving DecidableEq

structure CodeAction where
  action : ActionKind
  file_path : String
  description : String
  priority : Priority
deriving DecidableEq

structure RefactoringPlan where
  model_changes : List ModelChange
  code_actions : List CodeAction
  migration_notes : List String

/-! ### The individual change records pushed by the differ, one helper per
`changes.push(ModelChange { ... })` site of `src/domain/diff.rs`, with the
source's format strings reconstructed by concatenation. -/

def addedContextChange (bc : BoundedContext) : ModelChange :=
  { kind := .Added, path := "bounded_contexts." ++ bc.name,
    description := "New bounded context: " ++ bc.name,
    before := none,
    after := some (.obj [("name", .str bc.name), ("module", .str bc.module_path)]) }

def removedContextChange (bc : BoundedContext) : ModelChange :=
  { kind := .Removed, path := "bounded_contexts." ++ bc.name,
    description := "Removed bounded context: " ++ bc.name,
    before := some (.obj [("name", .str bc.name)]), after := none }

def addedRuleChange (r : ArchitecturalRule) : ModelChange :=
  { kind := .Added, path := "rules." ++ r.id,
    description := "New rule: " ++ r.id ++ " — " ++ r.description,
    before := none, after := some (ruleJson r) }

def removedRuleChange (r : ArchitecturalRule) : ModelChange :=
  { kind := .Removed, path := "rules." ++ r.id,
    description := "Removed rule: " ++ r.id,
    before := some (ruleJson r), after := none }

def modifiedRuleChange (o n : ArchitecturalRule) : ModelChange :=
  { kind := .Modified, path := "rules." ++ n.id,
    description := "Modified rule: " ++ n.id,
    before := some (ruleJson o), after := some (ruleJson n) }

def movedContextChange (o n : BoundedContext) : ModelChange :=
  { kind := .Moved, path := n.name ++ ".module_path",
    description := "Context " ++ sq ++ n.name ++ sq ++ " moved: " ++
      o.module_path ++ " → " ++ n.module_path,
    before := some (.str o.module_path), after := some (.str n.module_path) }

def addedEntityChange (ctx : String) (e : Entity) : ModelChange :=
  { kind := .Added, path := ctx ++ ".entities." ++ e.name,
    description := "New entity " ++ sq ++ e.name ++ sq ++ " in context " ++
      sq ++ ctx ++ sq,
    before := none, after := some (entityJson e) }

def removedEntityChange (ctx : String) (e : Entity) : ModelChange :=
  { kind := .Removed, path := ctx ++ ".entities." ++ e.name,
    description := "Removed entity " ++ sq ++ e.name ++ sq ++ " from context " ++
      sq ++ ctx ++ sq,
    before := some (entityJson e), after := none }

def addedServiceChange (ctx : String) (s : Service) : ModelChange :=
  { kind := .Added, path := ctx ++ ".services." ++ s.name,
    description := "New service " ++ sq ++ s.name ++ sq ++ " in context " ++
      sq ++ ctx ++ sq,
    before := none, after := some (serviceJson s) }

def removedServiceChange (ctx : String) (s : Service) : ModelChange :=
  { kind := .Removed, path := ctx ++ ".services." ++ s.name,
    description := "Removed service " ++ sq ++ s.name ++ sq ++ " from context " ++
      sq ++ ctx ++ sq,
    before := some (serviceJson s), after := none }

def addedEventChange (ctx : String) (e : DomainEvent) : ModelChange :=
  { kind := .Added, path := ctx ++ ".events." ++ e.name,
    description := "New event " ++ sq ++ e.name ++ sq ++ " in context " ++
      sq ++ ctx ++ sq,
    before := none, after := some (eventJson e) }

def removedEventChange (ctx : String) (e : DomainEvent) : ModelChange :=
  { kind := .Removed, path := ctx ++ ".events." ++ e.name,
    description := "Removed event " ++ sq ++ e.name ++ sq ++ " from context " ++
      sq ++ ctx ++ sq,
    before := some (eventJson e), after := none }

def addedValueObjectChange (ctx : String) (v : ValueObject) : ModelChange :=
  { kind := .Added, path := ctx ++ ".value_objects." ++ v.name,
    description := "New value object " ++ sq ++ v.name ++ sq ++ " in context " ++
      sq ++ ctx ++ sq,
    before := none, after := some (valueObjectJson v) }

def removedValueObjectChange (ctx : String) (v : ValueObject) : ModelChange :=
  { kind := .Removed, path := ctx ++ ".value_objects." ++ v.name,
    description := "Removed value object " ++ sq ++ v.name ++ sq ++
      " from context " ++ sq ++ ctx ++ sq,
    before := some (valueObjectJson v), after := none }

def addedRepositoryChange (ctx : String) (r : Repository) : ModelChange :=
  { kind := .Added, path := ctx ++ ".repositories." ++ r.name,
    description := "New repository " ++ sq ++ r.name ++ sq ++ " in context " ++
      sq ++ ctx ++ sq,
    before := none, after := some (repositoryJson r) }

def removedRepositoryChange (ctx : String) (r : Repository) : ModelChange :=
  { kind := .Removed, path := ctx ++ ".repositories." ++ r.name,
    description := "Removed repository " ++ sq ++ r.name ++ sq ++
      " from context " ++ sq ++ ctx ++ sq,
    before := some (repositoryJson r), after := none }

def addedDependencyChange (ctx dep : String) : ModelChange :=
  { kind := .Added, path := ctx ++ ".dependencies." ++ dep,
    description := "New dependency: " ++ ctx ++ " → " ++ dep,
    before := none, after := some (.str dep) }

def removedDependencyChange (ctx dep : String) : ModelChange :=
  { kind := .Removed, path := ctx ++ ".dependencies." ++ dep,
    description := "Removed dependency: " ++ ctx ++ " → " ++ dep,
    before := some (.str dep), after := none }

def aggRootModifiedChange (ctx : String) (o n : Entity) : ModelChange :=
  { kind := .Modified, path := ctx ++ "." ++ n.name ++ ".aggregate_root",
    description := sq ++ n.name ++ sq ++ " aggregate root: " ++
      boolStr o.aggregate_root ++ " → " ++ boolStr n.aggregate_root,
    before := some (.bool o.aggregate_root), after := some (.bool n.aggregate_root) }

def addedFieldChange (ctx ename : String) (f : Field) : ModelChange :=
  { kind := .Added, path := ctx ++ "." ++ ename ++ ".fields." ++ f.name,
    description := "New field " ++ sq ++ f.name ++ ": " ++ f.field_type ++ sq ++
      " on entity " ++ sq ++ ename ++ sq,
    before := none, after := some (fieldJson f) }

def removedFieldChange (ctx ename : String) (f : Field) : ModelChange :=
  { kind := .Removed, path := ctx ++ "." ++ ename ++ ".fields." ++ f.name,
    description := "Removed field " ++ sq ++ f.name ++ sq ++ " from entity " ++
      sq ++ ename ++ sq,
    before := some (fieldJson f), after := none }

def fieldTypeModifiedChange (ctx ename : String) (o n : Field) : ModelChange :=
  { kind := .Modified, path := ctx ++ "." ++ ename ++ ".fields." ++ n.name,
    description := "Field " ++ sq ++ n.name ++ sq ++ " on " ++ sq ++ ename ++ sq ++
      " type changed: " ++ o.field_type ++ " → " ++ n.field_type,
    before := some (.str o.field_type), after := some (.str n.field_type) }

def addedInvariantChange (ctx ename inv : String) : ModelChange :=
  { kind := .Added, path := ctx ++ "." ++ ename ++ ".invariants",
    description := "New invariant on " ++ sq ++ ename ++ sq ++ ": " ++ inv,
    before := none, after := some (.str inv) }

def serviceKindModifiedChange (ctx : String) (o n : Service) : ModelChange :=
  { kind := .Modified, path := ctx ++ ".services." ++ n.name ++ ".kind",
    description := "Service " ++ sq ++ n.name ++ sq ++ " kind changed: " ++
      serviceKindDebug o.kind ++ " → " ++ serviceKindDebug n.kind,
    before := some (.str (serviceKindDebug o.kind)),
    after := some (.str (serviceKindDebug n.kind)) }

def addedMethodChange (ctx sname : String) (m : Method) : ModelChange :=
  { kind := .Added, path := ctx ++ ".services." ++ sname ++ ".methods." ++ m.name,
    description := "New method " ++ sq ++ m.name ++ sq ++ " on service " ++
      sq ++ sname ++ sq,
    before := none, after := some (methodJson m) }

def removedMethodChange (ctx sname : String) (m : Method) : ModelChange :=
  { kind := .Removed, path := ctx ++ ".services." ++ sname ++ ".methods." ++ m.name,
    description := "Removed method " ++ sq ++ m.name ++ sq ++ " from service " ++
      sq ++ sname ++ sq,
    before := some (methodJson m), after := none }

def addedServiceDepChange (ctx sname dep : String) : ModelChange :=
  { kind := .Added,
    path := ctx ++ ".services." ++ sname ++ ".dependencies." ++ dep,
    description := "New dependency on service " ++ sq ++ sname ++ sq ++ ": " ++ dep,
    before := none, after := some (.str dep) }

def removedServiceDepChange (ctx sname dep : String) : ModelChange :=
  { kind := .Removed,
    path := ctx ++ ".services." ++ sname ++ ".dependencies." ++ dep,
    description := "Removed dependency on service " ++ sq ++ sname ++ sq ++
      ": " ++ dep,
    before := some (.str dep), after := none }

/-! ### The differ (`src/domain/diff.rs` lines 66-536). -/

/-- One pass of the source's repeated reconciliation pattern: for each element
of `new`, either emit the `Added` record (no case-insensitive match in `old`)
or recurse through `deep` on the matched pair; then emit the `Removed` record
for each element of `old` with no match in `new`.  The source writes this pair
of loops once per collection; every instantiation below corresponds to one
such pair, in the source's emission order.  (In the removed-side check the
source compares the names in the symmetric order; `eq_ignore_ascii_case` is
symmetric, so the test is the same.) -/
def reconcile (isMatch : α → α → Bool) (deep : α → α → List ModelChange)
    (mkAdd : α → ModelChange) (mkRem : α → ModelChange)
    (old new : List α) : List ModelChange :=
  (new.flatMap fun n =>
    match old.find? (fun o => isMatch o n) with
    | none => [mkAdd n]
    | some o => deep o n) ++
  ((old.filter fun o => !(new.any fun n => isMatch o n)).map mkRem)

/-- Name-based case-insensitive matching used by every named collection. -/
def nameMatch (key : α → String) (o n : α) : Bool :=
  eq_ignore_ascii_case (key o) (key n)

/-- `diff_entity` (`src/domain/diff.rs` lines 372-463): aggregate-root flip,
field set difference, field type changes, invariant additions. -/
def diff_entity (ctx : String) (old new : Entity) : List ModelChange :=
  (if old.aggregate_root != new.aggregate_root
   then [aggRootModifiedChange ctx old new] else []) ++
  reconcile (nameMatch Field.name) (fun _ _ => [])
    (addedFieldChange ctx new.name) (removedFieldChange ctx new.name)
    old.fields new.fields ++
  (new.fields.filterMap fun nf =>
    match old.fields.find? (fun o => nameMatch Field.name o nf) with
    | some of_ =>
        if of_.field_type != nf.field_type
        then some (fieldTypeModifiedChange ctx new.name of_ nf) else none
    | none => none) ++
  ((new.invariants.filter fun inv => !(old.invariants.any fun i => i == inv)).map
    (addedInvariantChange ctx new.name))

/-- `diff_service` (`src/domain/diff.rs` lines 465-536): kind change, method
set difference, dependency set difference. -/
def diff_service (ctx : String) (old new : Service) : List ModelChange :=
  (if serviceKindDebug old.kind != serviceKindDebug new.kind
   then [serviceKindModifiedChange ctx old new] else []) ++
  reconcile (nameMatch Method.name) (fun _ _ => [])
    (addedMethodChange ctx new.name) (removedMethodChange ctx new.name)
    old.methods new.methods ++
  reconcile (nameMatch id) (fun _ _ => [])
    (addedServiceDepChange ctx new.name) (removedServiceDepChange ctx new.name)
    old.dependencies new.dependencies

/-- `diff_context` (`src/domain/diff.rs` lines 152-370): module-path move,
then entities, services, events, value objects, repositories and dependencies,
in the source's order. -/
def diff_context (old new : BoundedContext) : List ModelChange :=
  (if old.module_path != new.module_path && !(new.module_path == "")
   then [movedContextChange old new] else []) ++
  reconcile (nameMatch Entity.name) (fun oe ne => diff_entity new.name oe ne)
    (addedEntityChange new.name) (removedEntityChange new.name)
    old.entities new.entities ++
  reconcile (nameMatch Service.name) (fun os ns => diff_service new.name os ns)
    (addedServiceChange new.name) (removedServiceChange new.name)
    old.services new.services ++
  reconcile (nameMatch DomainEvent.name) (fun _ _ => [])
    (addedEventChange new.name) (removedEventChange new.name)
    old.events new.events ++
  reconcile (nameMatch ValueObject.name) (fun _ _ => [])
    (addedValueObjectChange new.name) (removedValueObjectChange new.name)
    old.value_objects new.value_objects ++
  reconcile (nameMatch Repository.name) (fun _ _ => [])
    (addedRepositoryChange new.name) (removedRepositoryChange new.name)
    old.repositories new.repositories ++
  reconcile (nameMatch id) (fun _ _ => [])
    (addedDependencyChange new.name) (removedDependencyChange new.name)
    old.dependencies new.dependencies

/-- Exact-id matching for rules (`r.id == new_rule.id` in the source). -/
def idMatch (o n : ArchitecturalRule) : Bool := o.id == n.id

/-- `diff_models` (`src/domain/diff.rs` lines 66-150): bounded contexts
(added / recurse / removed), then rules (added, removed, modified). -/
def diff_models (old new : DomainModel) : List ModelChange :=
  reconcile (nameMatch BoundedContext.name) (fun oc nc => diff_context oc nc)
    addedContextChange removedContextChange
    old.bounded_contexts new.bounded_contexts ++
  reconcile idMatch (fun _ _ => []) addedRuleChange removedRuleChange
    old.rules new.rules ++
  (new.rules.filterMap fun nr =>
    match old.rules.find? (fun o => idMatch o nr) with
    | some or_ =>
        if or_.description != nr.description ||
           severityDebug or_.severity != severityDebug nr.severity
        then some (modifiedRuleChange or_ nr) else none
    | none => none)

/-! ### The planner (`src/domain/diff.rs` lines 538-733). -/

/-- `resolve_path` (`src/domain/diff.rs` lines 725-733). -/
def resolve_path (pattern context layer name : String) : String :=
  if pattern == "" then
    "src/" ++ to_snake context ++ "/" ++ layer ++ "/" ++ to_snake name ++ ".rs"
  else
    replaceStr (replaceStr (replaceStr pattern "{context}" (to_snake context))
      "{layer}" layer) "{type}" (to_snake name)

/-- Numeric sort key of a priority, exactly the `sort_by_key` closure at
`src/domain/diff.rs` lines 711-716. -/
def priorityNum : Priority → Nat
  | .Critical => 0
  | .High => 1
  | .Medium => 2
  | .Low => 3

/-- Comparison relation used to sort code actions by priority. -/
def planLE (a b : CodeAction) : Prop := priorityNum a.priority ≤ priorityNum b.priority

instance : DecidableRel planLE := fun a b => Nat.decLe _ _

/-- Code actions contributed by one change: the classification `match` of the
planner's loop (`src/domain/diff.rs` lines 547-708), with the source's slice
patterns on `path.split('.')` and its substring guards, tried in the source's
order. -/
def change_actions (pattern : String) (layers : List String)
    (change : ModelChange) : List CodeAction :=
  match change.kind with
  | .Added =>
    match split_dot change.path with
    | [_bc_key, ctx_name] =>
      if startsWithStr change.path "bounded_contexts." then
        layers.map fun layer =>
          { action := .CreateFile,
            file_path := "src/" ++ to_snake ctx_name ++ "/" ++ layer ++ "/mod.rs",
            description := "Create " ++ layer ++ " layer module for context " ++
              sq ++ ctx_name ++ sq,
            priority := .High }
      else []
    | [ctx, seg2, name3] =>
      if containsStr change.path ".entities." then
        [ { action := .CreateFile,
            file_path := resolve_path pattern ctx "domain" name3,
            description := "Create entity " ++ sq ++ name3 ++ sq,
            priority := .High },
          { action := .AddTest,
            file_path := resolve_path pattern ctx "domain" name3,
            description := "Add unit tests for entity " ++ sq ++ name3 ++ sq,
            priority := .Medium } ]
      else if containsStr change.path ".services." then
        [ { action := .CreateFile,
            file_path := resolve_path pattern ctx "application" name3,
            description := "Create service " ++ sq ++ name3 ++ sq,
            priority := .High } ]
      else if containsStr change.path ".events." then
        [ { action := .CreateFile,
            file_path := resolve_path pattern ctx "domain" name3,
            description := "Create domain event " ++ sq ++ name3 ++ sq,
            priority := .Medium } ]
      else if containsStr change.path ".invariants" then
        [ { action := .AddTest,
            file_path := resolve_path pattern ctx "domain" seg2,
            description := "Add test for new invariant on " ++ sq ++ seg2 ++ sq,
            priority := .Medium } ]
      else if containsStr change.path ".dependencies." then
        [ { action := .UpdateImports,
            file_path := "src/" ++ to_snake ctx ++ "/mod.rs",
            description := "Wire dependency " ++ sq ++ ctx ++ sq ++ " → " ++
              sq ++ name3 ++ sq,
            priority := .Medium } ]
      else []
    | [ctx, entity, _seg3, field_name] =>
      if containsStr change.path ".fields." then
        [ { action := .ModifyFile,
            file_path := resolve_path pattern ctx "domain" entity,
            description := "Add field " ++ sq ++ field_name ++ sq ++
              " to entity " ++ sq ++ entity ++ sq,
            priority := .High } ]
      else []
    | _ => []
  | .Removed =>
    match split_dot change.path with
    | [ctx, _seg2, entity_name] =>
      if containsStr change.path ".entities." then
        [ { action := .DeleteFile,
            file_path := resolve_path pattern ctx "domain" entity_name,
            description := "Remove entity " ++ sq ++ entity_name ++ sq ++
              " and all references",
            priority := .Critical } ]
      else []
    | [ctx, entity, _seg3, field_name] =>
      if containsStr change.path ".fields." then
        [ { action := .ModifyFile,
            file_path := resolve_path pattern ctx "domain" entity,
            description := "Remove field " ++ sq ++ field_name ++ sq ++
              " from entity " ++ sq ++ entity ++ sq,
            priority := .High } ]
      else []
    | _ => []
  | .Modified =>
    match split_dot change.path with
    | [ctx, entity, _seg3, field_name] =>
      if containsStr change.path ".fields." then
        [ { action := .ModifyFile,
            file_path := resolve_path pattern ctx "domain" entity,
            description := "Update field type for " ++ sq ++ field_name ++ sq ++
              " on " ++ sq ++ entity ++ sq,
            priority := .Critical } ]
      else []
    | _ => []
  | .Moved =>
    if containsStr change.path "module_path" then
      match change.before, change.after with
      | some f, some t =>
        [ { action := .MoveFile,
            file_path := (f.asStr).getD "",
            description := "Move module from " ++ ((f.asStr).getD "?") ++
              " to " ++ ((t.asStr).getD "?"),
            priority := .Critical } ]
      | _, _ => []
    else []

/-- Migration notes contributed by one change, from the same classification
arms of the planner's loop. -/
def change_notes (change : ModelChange) : List String :=
  match change.kind with
  | .Added =>
    match split_dot change.path with
    | [_ctx, _seg2, name3] =>
      if containsStr change.path ".entities." then
        ["New entity " ++ sq ++ name3 ++ sq ++ " — may need database migration"]
      else []
    | [_ctx, entity, _seg3, field_name] =>
      if containsStr change.path ".fields." then
        ["New field " ++ sq ++ field_name ++ sq ++ " on " ++ sq ++ entity ++ sq ++
         " — needs ALTER TABLE migration"]
      else []
    | _ => []
  | .Removed =>
    match split_dot change.path with
    | [_ctx, _seg2, entity_name] =>
      if containsStr change.path ".entities." then
        ["Removed entity " ++ sq ++ entity_name ++ sq ++
         " — needs DROP TABLE migration"]
      else []
    | [_ctx, entity, _seg3, field_name] =>
      if containsStr change.path ".fields." then
        ["Removed field " ++ sq ++ field_name ++ sq ++ " from " ++ sq ++ entity ++
         sq ++ " — needs ALTER TABLE migration"]
      else []
    | _ => []
  | .Modified =>
    match split_dot change.path with
    | [_ctx, entity, _seg3, field_name] =>
      if containsStr change.path ".fields." then
        ["Field type change on " ++ sq ++ entity ++ "." ++ field_name ++ sq ++
         " — needs data migration"]
      else []
    | _ => []
  | .Moved => []

/-- `plan_refactoring` (`src/domain/diff.rs` lines 539-723): accumulate the
per-change actions and notes in traversal order, then stably sort the actions
by priority (`sort_by_key`, a stable sort in Rust; `List.insertionSort` is the
same stable sort). -/
def plan_refactoring (changes : List ModelChange) (conventions : Conventions) :
    RefactoringPlan :=
  let pattern := conventions.file_structure.pattern
  let layers := conventions.file_structure.layers
  { model_changes := changes,
    code_actions :=
      List.insertionSort planLE (changes.flatMap (change_actions pattern layers)),
    migration_notes := changes.flatMap change_notes }

/-! ### Well-formedness of a model.

Section 3 of the specification makes the `name` (resp. `id`) field of every
artifact an identity key for its owning collection: a valid model has
pairwise case-insensitively distinct names per collection (exact ids for
rules).  The source's own test models all satisfy this. -/

/-- Pairwise case-insensitive distinctness of the keys of a list. -/
def distinctKeys (key : α → String) : List α → Bool
  | [] => true
  | x :: t =>
    (t.all fun y => !(eq_ignore_ascii_case (key x) (key y))) && distinctKeys key t

/-- Pairwise exact distinctness of rule ids. -/
def distinctIds : List ArchitecturalRule → Bool
  | [] => true
  | r :: t => (t.all fun r2 => !(r.id == r2.id)) && distinctIds t

def wfEntity (e : Entity) : Bool := distinctKeys Field.name e.fields

def wfService (s : Service) : Bool := distinctKeys Method.name s.methods

def wfContext (c : BoundedContext) : Bool :=
  distinctKeys Entity.name c.entities &&
  distinctKeys Service.name c.services &&
  distinctKeys DomainEvent.name c.events &&
  distinctKeys ValueObject.name c.value_objects &&
  distinctKeys Repository.name c.repositories &&
  c.entities.all wfEntity && c.services.all wfService

def wfModel (m : DomainModel) : Bool :=
  distinctKeys BoundedContext.name m.bounded_contexts &&
  m.bounded_contexts.all wfContext && distinctIds m.rules

/-- The literal middle path segments of the six per-context collections. -/
def reservedCollectionKeys : List String :=
  ["entities", "services", "events", "value_objects", "repositories",
   "dependencies"]

/-- No entity is named after one of the collection keys; this keeps the
three-segment logical paths of entity/service/event/value-object/repository/
dependency changes unambiguous (an entity literally named `entities` would
make its invariant path `ctx.entities.invariants` look like an entity-level
path). -/
def wfEntityNames (m : DomainModel) : Bool :=
  m.bounded_contexts.all fun c =>
    c.entities.all fun e => !(reservedCollectionKeys.contains e.name)

/-- A path of the entity/service/event/value-object/repository/dependency
level: three dot segments whose middle segment is the collection key. -/
def artifact_level (p : String) : Bool :=
  match split_dot p with
  | [_, key, _] => reservedCollectionKeys.contains key
  | _ => false

/-- A matched pair of contexts, exactly as the differ's outer loop finds it:
`nc` ranges over the new model's contexts and `oc` is the first
case-insensitive name match in the old model. -/
def matchedCtx (A B : DomainModel) (oc nc : BoundedContext) : Prop :=
  nc ∈ B.bounded_contexts ∧
  A.bounded_contexts.find? (fun o => nameMatch BoundedContext.name o nc) = some oc

/-! ### "Identical except for dropped invariants": the new artifact agrees with
the old one everywhere except that its invariant set may lack strings the old
one has.  Used to state that invariant removal is invisible to the differ. -/

def invShrinkEntity (o n : Entity) : Prop :=
  n.name = o.name ∧ n.description = o.description ∧
  n.aggregate_root = o.aggregate_root ∧ n.fields = o.fields ∧
  n.methods = o.methods ∧ ∀ inv ∈ n.invariants, inv ∈ o.invariants

def invShrinkCtx (o n : BoundedContext) : Prop :=
  n.name = o.name ∧ n.description = o.description ∧
  n.module_path = o.module_path ∧
  List.Forall₂ invShrinkEntity o.entities n.entities ∧
  n.value_objects = o.value_objects ∧ n.services = o.services ∧
  n.repositories = o.repositories ∧ n.events = o.events ∧
  n.dependencies = o.dependencies

def invShrinkModel (o n : DomainModel) : Prop :=
  n.name = o.name ∧ n.description = o.description ∧
  List.Forall₂ invShrinkCtx o.bounded_contexts n.bounded_contexts ∧
  n.rules = o.rules ∧ n.tech_stack = o.tech_stack ∧
  n.conventions = o.conventions

/-! ### Concrete scenario models, transcribed from the source's test module
(`base_model` in `src/domain/diff.rs`). -/

def baseConventions : Conventions :=
  { naming := { entities := "", value_objects := "", services := "",
                repositories := "", events := "" },
    file_structure := { pattern := "src/{context}/{layer}/{type}.rs",
                        layers := ["domain", "application"] },
    error_handling := "", testing := "" }

def userEntity : Entity :=
  { name := "User", description := "", aggregate_root := true,
    fields := [{ name := "id", field_type := "UserId", required := true,
                 description := "" }],
    methods := [], invariants := [] }

def identityCtx : BoundedContext :=
  { name := "Identity", description := "", module_path := "src/identity",
    entities := [userEntity], value_objects := [], services := [],
    repositories := [], events := [], dependencies := [] }

def baseModel : DomainModel :=
  { name := "Test", description := "", bounded_contexts := [identityCtx],
    rules := [],
    tech_stack := { language := "", framework := "", database := "",
                    messaging := "", additional := [] },
    conventions := baseConventions }

/-- Scenario "new entity": entity `Role` with no fields added to `Identity`. -/
def roleEntity : Entity :=
  { name := "Role", description := "", aggregate_root := false,
    fields := [], methods := [], invariants := [] }

def newEntityModel : DomainModel :=
  { baseModel with
    bounded_contexts := [{ identityCtx with entities := [userEntity, roleEntity] }] }

/-- Scenario "context move": `module_path` changes to `src/auth`. -/
def movedIdentityCtx : BoundedContext :=
  { identityCtx with module_path := "src/auth" }

def movedModel : DomainModel :=
  { baseModel with bounded_contexts := [movedIdentityCtx] }

/-- Scenario "field type change": `User.id` changes type to `Uuid`. -/
def typeChangedModel : DomainModel :=
  { baseModel with
    bounded_contexts := [{ identityCtx with entities :=
      [{ userEntity with fields := [{ name := "id", field_type := "Uuid",
                                      required := true, description := "" }] }] }] }

/-- Scenario for the invariant claims: `User` with one invariant. -/
def invUserEntity : Entity :=
  { userEntity with invariants := ["email is unique"] }

def invIdentityCtx : BoundedContext :=
  { identityCtx with entities := [invUserEntity] }

def invModel : DomainModel :=
  { baseModel with bounded_contexts := [invIdentityCtx] }

/-- An `Added` change with a one-segment path: it fails every guard of the
planner's classification. -/
def unmatchedAddedChange : ModelChange :=
  { kind := .Added, path := "x", description := "", before := none,
    after := none }

/-- Scenario "removed entity": `Identity` without `User`. -/
def noUserModel : DomainModel :=
  { baseModel with
    bounded_contexts := [{ identityCtx with entities := [] }] }

/-- The classification table's (kind, path-shape) pairs as written in the
specification (section 4.2), with the shapes read as exact dot-segment
patterns.  This definition follows the spec's words; it exists to be compared
with the code's guard conditions (`change_matches_guards` below). -/
def table_shape_spec (c : ModelChange) : Bool :=
  match c.kind, split_dot c.path with
  | .Added, ["bounded_contexts", _] => true
  | .Added, [_, "entities", _] => true
  | .Added, [_, _, "fields", _] => true
  | .Added, [_, "services", _] => true
  | .Added, [_, "events", _] => true
  | .Added, [_, _, "invariants"] => true
  | .Added, [_, "dependencies", _] => true
  | .Removed, [_, "entities", _] => true
  | .Removed, [_, _, "fields", _] => true
  | .Modified, [_, _, "fields", _] => true
  | .Moved, segs => segs.getLast? == some "module_path"
  | _, _ => false

/-- The planner's actual guard conditions: segment-count slice patterns
combined with substring containment (and, for `Moved`, the presence of both
`before` and `after`), exactly the conditions of the `match` arms in
`plan_refactoring`.  A change fails these guards exactly when the planner's
loop falls through to a wildcard arm for it. -/
def change_matches_guards (c : ModelChange) : Bool :=
  match c.kind with
  | .Added =>
    match split_dot c.path with
    | [_, _] => startsWithStr c.path "bounded_contexts."
    | [_, _, _] =>
      containsStr c.path ".entities." || containsStr c.path ".services." ||
      containsStr c.path ".events." || containsStr c.path ".invariants" ||
      containsStr c.path ".dependencies."
    | [_, _, _, _] => containsStr c.path ".fields."
    | _ => false
  | .Removed =>
    match split_dot c.path with
    | [_, _, _] => containsStr c.path ".entities."
    | [_, _, _, _] => containsStr c.path ".fields."
    | _ => false
  | .Modified =>
    match split_dot c.path with
    | [_, _, _, _] => containsStr c.path ".fields."
    | _ => false
  | .Moved =>
    containsStr c.path "module_path" && c.before.isSome && c.after.isSome

/-- A `Moved` change whose path contains `module_path` as a substring without
ending in a `.module_path` segment: outside every table shape, yet the
planner's substring guard still fires on it. -/
def strayMovedChange : ModelChange :=
  { kind := .Moved, path := "a.bmodule_path", description := "",
    before := some (.str "x"), after := some (.str "y") }

/-! ### Lemmas about the string utilities. -/

theorem string_mk_inj {l1 l2 : List Char} (h : String.mk l1 = String.mk l2) :
    l1 = l2 := by
  injection h

theorem ascii_lower_append (a b : String) :
    ascii_lower (a ++ b) = ascii_lower a ++ ascii_lower b := by
  show String.mk ((a ++ b).data.map Char.toLower) = _
  rw [String.data_append, List.map_append]
  rfl

theorem eqIC_iff {a b : String} :
    eq_ignore_ascii_case a b = true ↔ ascii_lower a = ascii_lower b := by
  unfold eq_ignore_ascii_case ascii_lower
  constructor
  · intro h
    exact congrArg String.mk (beq_iff_eq.mp h)
  · intro h
    exact beq_iff_eq.mpr (string_mk_inj h)

theorem eqIC_refl (a : String) : eq_ignore_ascii_case a a = true :=
  eqIC_iff.mpr rfl

theorem eqIC_symm {a b : String} (h : eq_ignore_ascii_case a b = true) :
    eq_ignore_ascii_case b a = true :=
  eqIC_iff.mpr (eqIC_iff.mp h).symm

theorem eqIC_trans {a b c : String} (h1 : eq_ignore_ascii_case a b = true)
    (h2 : eq_ignore_ascii_case b c = true) : eq_ignore_ascii_case a c = true :=
  eqIC_iff.mpr ((eqIC_iff.mp h1).trans (eqIC_iff.mp h2))

/-! ### Lemmas about distinct keys and `find?`. -/

theorem distinctKeys_cons {key : α → String} {x : α} {t : List α} :
    distinctKeys key (x :: t) = true ↔
      (∀ y ∈ t, eq_ignore_ascii_case (key x) (key y) = false) ∧
      distinctKeys key t = true := by
  simp [distinctKeys, List.all_eq_true]

/-- In a list with pairwise case-insensitively distinct keys, `find?` for a
key that matches a member returns exactly that member. -/
theorem find?_key_eq_some (key : α → String) {l : List α}
    (hd : distinctKeys key l = true) {x : α} (hx : x ∈ l) {s : String}
    (hs : eq_ignore_ascii_case (key x) s = true) :
    l.find? (fun o => eq_ignore_ascii_case (key o) s) = some x := by
  induction l with
  | nil => cases hx
  | cons y t ih =>
    rcases distinctKeys_cons.mp hd with ⟨hy, ht⟩
    by_cases hcase : eq_ignore_ascii_case (key y) s = true
    · have hxy : y = x := by
        rcases List.mem_cons.mp hx with h | h
        · exact h.symm
        · exfalso
          have h1 := hy x h
          have h2 : eq_ignore_ascii_case (key y) (key x) = true :=
            eqIC_trans hcase (eqIC_symm hs)
          rw [h1] at h2
          cases h2
      subst hxy
      exact List.find?_cons_of_pos t hcase
    · have hxt : x ∈ t := by
        rcases List.mem_cons.mp hx with h | h
        · subst h; exact absurd hs hcase
        · exact h
      rw [List.find?_cons_of_neg t hcase]
      exact ih ht hxt

theorem distinctIds_cons {x : ArchitecturalRule} {t : List ArchitecturalRule} :
    distinctIds (x :: t) = true ↔
      (∀ y ∈ t, (x.id == y.id) = false) ∧ distinctIds t = true := by
  simp [distinctIds, List.all_eq_true]

/-- Exact-id variant of `find?_key_eq_some`, for rules. -/
theorem find?_id_eq_some {l : List ArchitecturalRule}
    (hd : distinctIds l = true) {x : ArchitecturalRule} (hx : x ∈ l) :
    l.find? (fun o => o.id == x.id) = some x := by
  induction l with
  | nil => cases hx
  | cons y t ih =>
    rcases distinctIds_cons.mp hd with ⟨hy, ht⟩
    by_cases hcase : (y.id == x.id) = true
    · have hxy : y = x := by
        rcases List.mem_cons.mp hx with h | h
        · exact h.symm
        · exact absurd hcase (by rw [hy x h]; exact Bool.false_ne_true)
      subst hxy
      exact List.find?_cons_of_pos t hcase
    · have hxt : x ∈ t := by
        rcases List.mem_cons.mp hx with h | h
        · subst h; exact absurd (beq_self_eq_true x.id) hcase
        · exact h
      rw [List.find?_cons_of_neg t hcase]
      exact ih ht hxt

/-! ### Membership lemmas for `reconcile`. -/

theorem mem_reconcile_added {isMatch : α → α → Bool}
    {deep : α → α → List ModelChange} {mkAdd mkRem : α → ModelChange}
    {old new : List α} {n : α} (hn : n ∈ new)
    (hf : old.find? (fun o => isMatch o n) = none) :
    mkAdd n ∈ reconcile isMatch deep mkAdd mkRem old new := by
  unfold reconcile
  rw [List.mem_append]
  left
  rw [List.mem_flatMap]
  refine ⟨n, hn, ?_⟩
  rw [hf]
  exact List.mem_singleton.mpr rfl

theorem mem_reconcile_deep {isMatch : α → α → Bool}
    {deep : α → α → List ModelChange} {mkAdd mkRem : α → ModelChange}
    {old new : List α} {n o : α} {c : ModelChange} (hn : n ∈ new)
    (hf : old.find? (fun o2 => isMatch o2 n) = some o) (hc : c ∈ deep o n) :
    c ∈ reconcile isMatch deep mkAdd mkRem old new := by
  unfold reconcile
  rw [List.mem_append]
  left
  rw [List.mem_flatMap]
  refine ⟨n, hn, ?_⟩
  rw [hf]
  exact hc

theorem mem_reconcile_removed {isMatch : α → α → Bool}
    {deep : α → α → List ModelChange} {mkAdd mkRem : α → ModelChange}
    {old new : List α} {o : α} (ho : o ∈ old)
    (ha : (new.any fun n => isMatch o n) = false) :
    mkRem o ∈ reconcile isMatch deep mkAdd mkRem old new := by
  unfold reconcile
  rw [List.mem_append]
  right
  rw [List.mem_map]
  exact ⟨o, List.mem_filter.mpr ⟨ho, by simp [ha]⟩, rfl⟩

theorem reconcile_cases {isMatch : α → α → Bool}
    {deep : α → α → List ModelChange} {mkAdd mkRem : α → ModelChange}
    {old new : List α} {c : ModelChange}
    (h : c ∈ reconcile isMatch deep mkAdd mkRem old new) :
    (∃ n, n ∈ new ∧ old.find? (fun o => isMatch o n) = none ∧ c = mkAdd n) ∨
    (∃ o n, n ∈ new ∧ old.find? (fun o2 => isMatch o2 n) = some o ∧ c ∈ deep o n) ∨
    (∃ o, o ∈ old ∧ (new.any fun n => isMatch o n) = false ∧ c = mkRem o) := by
  unfold reconcile at h
  rw [List.mem_append] at h
  rcases h with h | h
  · rw [List.mem_flatMap] at h
    rcases h with ⟨n, hn, hc⟩
    cases hf : old.find? (fun o => isMatch o n) with
    | none =>
      rw [hf] at hc
      left
      exact ⟨n, hn, hf, List.mem_singleton.mp hc⟩
    | some o =>
      rw [hf] at hc
      right; left
      exact ⟨o, n, hn, hf, hc⟩
  · rw [List.mem_map] at h
    rcases h with ⟨o, ho, rfl⟩
    rw [List.mem_filter] at ho
    right; right
    refine ⟨o, ho.1, ?_, rfl⟩
    have := ho.2
    simpa using this

/-- A deep-trivial `reconcile` of a list against itself produces nothing
(needs only reflexivity of the match, not distinctness). -/
theorem reconcile_triv_self {isMatch : α → α → Bool}
    {mkAdd mkRem : α → ModelChange} {l : List α}
    (hrefl : ∀ x ∈ l, isMatch x x = true) :
    reconcile isMatch (fun _ _ => []) mkAdd mkRem l l = [] := by
  unfold reconcile
  rw [List.append_eq_nil]
  constructor
  · rw [List.flatMap_eq_nil_iff]
    intro n hn
    cases hf : l.find? (fun o => isMatch o n) with
    | none => exact absurd (hrefl n hn) (List.find?_eq_none.mp hf n hn)
    | some o => rfl
  · rw [List.map_eq_nil_iff, List.filter_eq_nil_iff]
    intro o ho
    simp [List.any_eq_true]
    exact ⟨o, ho, hrefl o ho⟩

/-- Left-to-right membership projection of `List.Forall₂`. -/
theorem forall₂_mem_left {R : α → β → Prop} {l1 : List α} {l2 : List β}
    (h : List.Forall₂ R l1 l2) : ∀ a ∈ l1, ∃ b ∈ l2, R a b := by
  induction h with
  | nil => intro a ha; cases ha
  | cons hab _ ih =>
    intro a ha
    rcases List.mem_cons.mp ha with rfl | ha
    · exact ⟨_, List.mem_cons_self _ _, hab⟩
    · rcases ih a ha with ⟨b, hb, hr⟩
      exact ⟨b, List.mem_cons_of_mem _ hb, hr⟩

/-- Right-to-left membership projection of `List.Forall₂`. -/
theorem forall₂_mem_right {R : α → β → Prop} {l1 : List α} {l2 : List β}
    (h : List.Forall₂ R l1 l2) : ∀ b ∈ l2, ∃ a ∈ l1, R a b := by
  induction h with
  | nil => intro b hb; cases hb
  | cons hab _ ih =>
    intro b hb
    rcases List.mem_cons.mp hb with rfl | hb
    · exact ⟨_, List.mem_cons_self _ _, hab⟩
    · rcases ih b hb with ⟨a, ha, hr⟩
      exact ⟨a, List.mem_cons_of_mem _ ha, hr⟩

/-- A name-keyed `reconcile` over `Forall₂`-related lists whose relation
preserves keys and whose deep diff vanishes on related pairs produces
nothing.  Distinctness of the old keys pins `find?` to the partner. -/
theorem reconcile_rel_eq_nil {R : α → α → Prop} {key : α → String}
    {deep : α → α → List ModelChange} {mkAdd mkRem : α → ModelChange}
    {old new : List α} (hd : distinctKeys key old = true)
    (hrel : List.Forall₂ R old new)
    (hkey : ∀ a b, R a b → key b = key a)
    (hdeep : ∀ a b, a ∈ old → R a b → deep a b = []) :
    reconcile (nameMatch key) deep mkAdd mkRem old new = [] := by
  unfold reconcile
  rw [List.append_eq_nil]
  constructor
  · rw [List.flatMap_eq_nil_iff]
    intro n hn
    rcases forall₂_mem_right hrel n hn with ⟨o, ho, hr⟩
    have hf : old.find? (fun o2 => nameMatch key o2 n) = some o := by
      have := find?_key_eq_some key hd ho
        (s := key n) (by rw [hkey o n hr]; exact eqIC_refl _)
      exact this
    rw [hf]
    exact hdeep o n ho hr
  · rw [List.map_eq_nil_iff, List.filter_eq_nil_iff]
    intro o ho
    rcases forall₂_mem_left hrel o ho with ⟨b, hb, hr⟩
    simp [List.any_eq_true]
    refine ⟨b, hb, ?_⟩
    show eq_ignore_ascii_case (key o) (key b) = true
    rw [hkey o b hr]
    exact eqIC_refl _

/-- `nameMatch` variant of `find?_key_eq_some`, shaped like the predicates in
the differ. -/
theorem find?_nameMatch_eq_some (key : α → String) {l : List α}
    (hd : distinctKeys key l = true) {x : α} (hx : x ∈ l) {n : α}
    (hn : eq_ignore_ascii_case (key x) (key n) = true) :
    l.find? (fun o => nameMatch key o n) = some x :=
  find?_key_eq_some key hd hx hn

/-- `idMatch` variant for rules. -/
theorem find?_idMatch_eq_some {l : List ArchitecturalRule}
    (hd : distinctIds l = true) {x : ArchitecturalRule} (hx : x ∈ l) :
    l.find? (fun o => idMatch o x) = some x :=
  find?_id_eq_some hd hx

/-! ### The differ is empty on a model that only dropped invariants (and in
particular on identical models). -/

theorem diff_service_refl (ctx : String) (s : Service) :
    diff_service ctx s s = [] := by
  unfold diff_service
  rw [List.append_eq_nil, List.append_eq_nil]
  refine ⟨⟨?_, ?_⟩, ?_⟩
  · rw [bne_self_eq_false]
    simp
  · exact reconcile_triv_self fun x _ => eqIC_refl x.name
  · exact reconcile_triv_self fun x _ => eqIC_refl x

theorem diff_entity_shrink {ctx : String} {o n : Entity}
    (hw : wfEntity o = true) (hr : invShrinkEntity o n) :
    diff_entity ctx o n = [] := by
  obtain ⟨_hname, _hdesc, hagg, hfields, _hmeth, hinv⟩ := hr
  unfold diff_entity
  rw [List.append_eq_nil, List.append_eq_nil, List.append_eq_nil]
  refine ⟨⟨⟨?_, ?_⟩, ?_⟩, ?_⟩
  · rw [hagg, bne_self_eq_false]
    simp
  · rw [hfields]
    exact reconcile_triv_self fun x _ => eqIC_refl x.name
  · rw [hfields, List.filterMap_eq_nil_iff]
    intro nf hnf
    rw [find?_nameMatch_eq_some Field.name hw hnf (eqIC_refl nf.name)]
    simp
  · rw [List.map_eq_nil_iff, List.filter_eq_nil_iff]
    intro inv hi
    simp only [Bool.not_eq_true', Bool.not_eq_false, List.any_eq_true]
    exact ⟨inv, hinv inv hi, beq_self_eq_true inv⟩

theorem diff_context_shrink {o n : BoundedContext}
    (hw : wfContext o = true) (hr : invShrinkCtx o n) :
    diff_context o n = [] := by
  obtain ⟨_hname, _hdesc, hmod, hent, hvo, hsvc, hrepo, hev, hdep⟩ := hr
  have hw' := hw
  unfold wfContext at hw'
  simp only [Bool.and_eq_true, List.all_eq_true] at hw'
  obtain ⟨⟨⟨⟨⟨⟨hdent, _hdsvc⟩, _hdev⟩, _hdvo⟩, _hdrepo⟩, hallent⟩, _hallsvc⟩ := hw'
  unfold diff_context
  rw [List.append_eq_nil, List.append_eq_nil, List.append_eq_nil,
    List.append_eq_nil, List.append_eq_nil, List.append_eq_nil]
  refine ⟨⟨⟨⟨⟨⟨?_, ?_⟩, ?_⟩, ?_⟩, ?_⟩, ?_⟩, ?_⟩
  · rw [hmod, bne_self_eq_false]
    simp
  · exact reconcile_rel_eq_nil hdent hent (fun a b h => h.1)
      (fun a b ha h => diff_entity_shrink (hallent a ha) h)
  · rw [hsvc]
    exact reconcile_rel_eq_nil _hdsvc (List.forall₂_same.mpr fun x _ => rfl)
      (fun a b h => by rw [h]) (fun a b _ h => by rw [h]; exact diff_service_refl _ b)
  · rw [hev]
    exact reconcile_triv_self fun x _ => eqIC_refl x.name
  · rw [hvo]
    exact reconcile_triv_self fun x _ => eqIC_refl x.name
  · rw [hrepo]
    exact reconcile_triv_self fun x _ => eqIC_refl x.name
  · rw [hdep]
    exact reconcile_triv_self fun x _ => eqIC_refl x

theorem diff_models_shrink {A B : DomainModel}
    (hw : wfModel A = true) (hr : invShrinkModel A B) :
    diff_models A B = [] := by
  obtain ⟨_hname, _hdesc, hctx, hrules, _hts, _hconv⟩ := hr
  have hw' := hw
  unfold wfModel at hw'
  simp only [Bool.and_eq_true, List.all_eq_true] at hw'
  obtain ⟨⟨hdctx, hallctx⟩, hdrules⟩ := hw'
  unfold diff_models
  rw [List.append_eq_nil, List.append_eq_nil]
  refine ⟨⟨?_, ?_⟩, ?_⟩
  · exact reconcile_rel_eq_nil hdctx hctx (fun a b h => h.1)
      (fun a b ha h => diff_context_shrink (hallctx a ha) h)
  · rw [hrules]
    exact reconcile_triv_self fun x _ => beq_self_eq_true x.id
  · rw [hrules, List.filterMap_eq_nil_iff]
    intro nr hnr
    rw [find?_idMatch_eq_some hdrules hnr]
    simp

/-- Reflexivity of the shrink relation (for deriving `diff M M = []`). -/
theorem invShrinkModel_refl (M : DomainModel) : invShrinkModel M M := by
  refine ⟨rfl, rfl, ?_, rfl, rfl, rfl⟩
  rw [List.forall₂_same]
  intro c _
  refine ⟨rfl, rfl, rfl, ?_, rfl, rfl, rfl, rfl, rfl⟩
  rw [List.forall₂_same]
  intro e _
  exact ⟨rfl, rfl, rfl, rfl, rfl, fun inv hi => hi⟩

/-! ### Accessors into the well-formedness predicates. -/

theorem wfModel_distinctCtx {m : DomainModel} (h : wfModel m = true) :
    distinctKeys BoundedContext.name m.bounded_contexts = true := by
  unfold wfModel at h
  simp only [Bool.and_eq_true] at h
  exact h.1.1

theorem wfModel_wfContext {m : DomainModel} (h : wfModel m = true)
    {c : BoundedContext} (hc : c ∈ m.bounded_contexts) : wfContext c = true := by
  unfold wfModel at h
  simp only [Bool.and_eq_true, List.all_eq_true] at h
  exact h.1.2 c hc

theorem wfContext_distinctEnt {c : BoundedContext} (h : wfContext c = true) :
    distinctKeys Entity.name c.entities = true := by
  unfold wfContext at h
  simp only [Bool.and_eq_true] at h
  exact h.1.1.1.1.1.1

theorem wfContext_distinctSvc {c : BoundedContext} (h : wfContext c = true) :
    distinctKeys Service.name c.services = true := by
  unfold wfContext at h
  simp only [Bool.and_eq_true] at h
  exact h.1.1.1.1.1.2

/-- `matchedCtx` is symmetric up to swapping the two models, given the new
model's context names are distinct. -/
theorem matchedCtx_symm {A B : DomainModel} {oc nc : BoundedContext}
    (hB : wfModel B = true) (h : matchedCtx A B oc nc) : matchedCtx B A nc oc := by
  obtain ⟨hnc, hf⟩ := h
  have hoc : oc ∈ A.bounded_contexts := List.mem_of_find?_eq_some hf
  have heq0 := List.find?_some (p := fun o => nameMatch BoundedContext.name o nc) hf
  have heq : eq_ignore_ascii_case oc.name nc.name = true := heq0
  exact ⟨hoc, find?_nameMatch_eq_some BoundedContext.name (wfModel_distinctCtx hB)
    hnc (eqIC_symm heq)⟩

/-! ### Converting the differ's two side conditions into each other. -/

theorem any_false_to_find?_none {key : α → String} {l : List α} {x : α}
    (h : (l.any fun n => nameMatch key x n) = false) :
    l.find? (fun o => nameMatch key o x) = none := by
  rw [List.find?_eq_none]
  intro y hy hc
  have ht : (l.any fun n => nameMatch key x n) = true :=
    List.any_eq_true.mpr ⟨y, hy, eqIC_symm hc⟩
  rw [h] at ht
  cases ht

theorem find?_none_to_any_false {key : α → String} {l : List α} {x : α}
    (h : l.find? (fun o => nameMatch key o x) = none) :
    (l.any fun n => nameMatch key x n) = false := by
  cases ha : (l.any fun n => nameMatch key x n) with
  | false => rfl
  | true =>
    obtain ⟨y, hy, hp⟩ := List.any_eq_true.mp ha
    exact absurd (eqIC_symm hp) (List.find?_eq_none.mp h y hy)

theorem id_any_false_to_find?_none {l : List ArchitecturalRule}
    {x : ArchitecturalRule} (h : (l.any fun n => idMatch x n) = false) :
    l.find? (fun o => idMatch o x) = none := by
  rw [List.find?_eq_none]
  intro y hy hc
  have hxy : y.id = x.id := beq_iff_eq.mp hc
  have ht : (l.any fun n => idMatch x n) = true :=
    List.any_eq_true.mpr ⟨y, hy, beq_iff_eq.mpr hxy.symm⟩
  rw [h] at ht
  cases ht

theorem id_find?_none_to_any_false {l : List ArchitecturalRule}
    {x : ArchitecturalRule} (h : l.find? (fun o => idMatch o x) = none) :
    (l.any fun n => idMatch x n) = false := by
  cases ha : (l.any fun n => idMatch x n) with
  | false => rfl
  | true =>
    obtain ⟨y, hy, hp⟩ := List.any_eq_true.mp ha
    exact absurd (beq_iff_eq.mpr (beq_iff_eq.mp hp).symm)
      (List.find?_eq_none.mp h y hy)

/-! ### Case-insensitive equality of mirrored logical paths. -/

theorem lower_path1 {a a' : String} (ha : eq_ignore_ascii_case a a' = true)
    (s n : String) : ascii_lower (a ++ s ++ n) = ascii_lower (a' ++ s ++ n) := by
  simp only [ascii_lower_append]
  rw [eqIC_iff.mp ha]

theorem lower_path2 {a a' b b' : String} (ha : eq_ignore_ascii_case a a' = true)
    (hb : eq_ignore_ascii_case b b' = true) (s t u : String) :
    ascii_lower (a ++ s ++ b ++ t ++ u) = ascii_lower (a' ++ s ++ b' ++ t ++ u) := by
  simp only [ascii_lower_append]
  rw [eqIC_iff.mp ha, eqIC_iff.mp hb]

/-! ### Embedding the pieces of the differ into the full output. -/

theorem mem_dm_of_ctx {A B : DomainModel} {oc nc : BoundedContext}
    {c : ModelChange} (h : matchedCtx A B oc nc) (hc : c ∈ diff_context oc nc) :
    c ∈ diff_models A B := by
  unfold diff_models
  simp only [List.mem_append]
  left; left
  exact mem_reconcile_deep h.1 h.2 hc

theorem mem_dm_ctx_added {A B : DomainModel} {nc : BoundedContext}
    (hnc : nc ∈ B.bounded_contexts)
    (hf : A.bounded_contexts.find?
      (fun o => nameMatch BoundedContext.name o nc) = none) :
    addedContextChange nc ∈ diff_models A B := by
  unfold diff_models
  simp only [List.mem_append]
  left; left
  exact mem_reconcile_added hnc hf

theorem mem_dm_ctx_removed {A B : DomainModel} {oc : BoundedContext}
    (hoc : oc ∈ A.bounded_contexts)
    (ha : (B.bounded_contexts.any
      fun n => nameMatch BoundedContext.name oc n) = false) :
    removedContextChange oc ∈ diff_models A B := by
  unfold diff_models
  simp only [List.mem_append]
  left; left
  exact mem_reconcile_removed hoc ha

theorem mem_dm_rule_added {A B : DomainModel} {nr : ArchitecturalRule}
    (hnr : nr ∈ B.rules) (hf : A.rules.find? (fun o => idMatch o nr) = none) :
    addedRuleChange nr ∈ diff_models A B := by
  unfold diff_models
  simp only [List.mem_append]
  left; right
  exact mem_reconcile_added hnr hf

theorem mem_dm_rule_removed {A B : DomainModel} {r : ArchitecturalRule}
    (hr : r ∈ A.rules) (ha : (B.rules.any fun n => idMatch r n) = false) :
    removedRuleChange r ∈ diff_models A B := by
  unfold diff_models
  simp only [List.mem_append]
  left; right
  exact mem_reconcile_removed hr ha

theorem mem_dc_ent {oc nc : BoundedContext} {c : ModelChange}
    (h : c ∈ reconcile (nameMatch Entity.name)
      (fun oe ne => diff_entity nc.name oe ne) (addedEntityChange nc.name)
      (removedEntityChange nc.name) oc.entities nc.entities) :
    c ∈ diff_context oc nc := by
  unfold diff_context
  simp only [List.mem_append]
  left; left; left; left; left; right
  exact h

theorem mem_dc_svc {oc nc : BoundedContext} {c : ModelChange}
    (h : c ∈ reconcile (nameMatch Service.name)
      (fun os ns => diff_service nc.name os ns) (addedServiceChange nc.name)
      (removedServiceChange nc.name) oc.services nc.services) :
    c ∈ diff_context oc nc := by
  unfold diff_context
  simp only [List.mem_append]
  left; left; left; left; right
  exact h

theorem mem_dc_ev {oc nc : BoundedContext} {c : ModelChange}
    (h : c ∈ reconcile (nameMatch DomainEvent.name) (fun _ _ => [])
      (addedEventChange nc.name) (removedEventChange nc.name)
      oc.events nc.events) :
    c ∈ diff_context oc nc := by
  unfold diff_context
  simp only [List.mem_append]
  left; left; left; right
  exact h

theorem mem_dc_vo {oc nc : BoundedContext} {c : ModelChange}
    (h : c ∈ reconcile (nameMatch ValueObject.name) (fun _ _ => [])
      (addedValueObjectChange nc.name) (removedValueObjectChange nc.name)
      oc.value_objects nc.value_objects) :
    c ∈ diff_context oc nc := by
  unfold diff_context
  simp only [List.mem_append]
  left; left; right
  exact h

theorem mem_dc_rp {oc nc : BoundedContext} {c : ModelChange}
    (h : c ∈ reconcile (nameMatch Repository.name) (fun _ _ => [])
      (addedRepositoryChange nc.name) (removedRepositoryChange nc.name)
      oc.repositories nc.repositories) :
    c ∈ diff_context oc nc := by
  unfold diff_context
  simp only [List.mem_append]
  left; right
  exact h

theorem mem_dc_dep {oc nc : BoundedContext} {c : ModelChange}
    (h : c ∈ reconcile (nameMatch id) (fun _ _ => [])
      (addedDependencyChange nc.name) (removedDependencyChange nc.name)
      oc.dependencies nc.dependencies) :
    c ∈ diff_context oc nc := by
  unfold diff_context
  simp only [List.mem_append]
  right
  exact h

theorem mem_de_fields {ctx : String} {oe ne : Entity} {c : ModelChange}
    (h : c ∈ reconcile (nameMatch Field.name) (fun _ _ => [])
      (addedFieldChange ctx ne.name) (removedFieldChange ctx ne.name)
      oe.fields ne.fields) :
    c ∈ diff_entity ctx oe ne := by
  unfold diff_entity
  simp only [List.mem_append]
  left; left; right
  exact h

theorem mem_ds_methods {ctx : String} {os ns : Service} {c : ModelChange}
    (h : c ∈ reconcile (nameMatch Method.name) (fun _ _ => [])
      (addedMethodChange ctx ns.name) (removedMethodChange ctx ns.name)
      os.methods ns.methods) :
    c ∈ diff_service ctx os ns := by
  unfold diff_service
  simp only [List.mem_append]
  left; right
  exact h

theorem mem_ds_deps {ctx : String} {os ns : Service} {c : ModelChange}
    (h : c ∈ reconcile (nameMatch id) (fun _ _ => [])
      (addedServiceDepChange ctx ns.name) (removedServiceDepChange ctx ns.name)
      os.dependencies ns.dependencies) :
    c ∈ diff_service ctx os ns := by
  unfold diff_service
  simp only [List.mem_append]
  right
  exact h

/-! ### Exhaustive case analyses of the differ's output. -/

theorem mem_if_singleton {cond : Bool} {x c : ModelChange}
    (h : c ∈ (if cond then [x] else ([] : List ModelChange))) :
    cond = true ∧ c = x := by
  by_cases hc : cond = true
  · rw [if_pos hc] at h
    exact ⟨hc, List.mem_singleton.mp h⟩
  · rw [if_neg hc] at h
    exact absurd h (List.not_mem_nil c)

/-- A deep-trivial `reconcile` only produces its `Added` and `Removed`
records. -/
theorem reconcile_triv_cases {isMatch : α → α → Bool}
    {mkAdd mkRem : α → ModelChange} {old new : List α} {c : ModelChange}
    (h : c ∈ reconcile isMatch (fun _ _ => []) mkAdd mkRem old new) :
    (∃ n, n ∈ new ∧ old.find? (fun o => isMatch o n) = none ∧ c = mkAdd n) ∨
    (∃ o, o ∈ old ∧ (new.any fun n => isMatch o n) = false ∧ c = mkRem o) := by
  rcases reconcile_cases h with h | h | h
  · exact Or.inl h
  · rcases h with ⟨_, _, _, _, hc⟩
    exact absurd hc (List.not_mem_nil c)
  · exact Or.inr h

theorem diff_entity_cases {ctx : String} {oe ne : Entity} {c : ModelChange}
    (h : c ∈ diff_entity ctx oe ne) :
    ((oe.aggregate_root != ne.aggregate_root) = true ∧
      c = aggRootModifiedChange ctx oe ne) ∨
    (∃ f, f ∈ ne.fields ∧
      oe.fields.find? (fun o => nameMatch Field.name o f) = none ∧
      c = addedFieldChange ctx ne.name f) ∨
    (∃ f, f ∈ oe.fields ∧
      (ne.fields.any fun n => nameMatch Field.name f n) = false ∧
      c = removedFieldChange ctx ne.name f) ∨
    (∃ of_ nf, nf ∈ ne.fields ∧
      oe.fields.find? (fun o => nameMatch Field.name o nf) = some of_ ∧
      (of_.field_type != nf.field_type) = true ∧
      c = fieldTypeModifiedChange ctx ne.name of_ nf) ∨
    (∃ inv, inv ∈ ne.invariants ∧
      (oe.invariants.any fun i => i == inv) = false ∧
      c = addedInvariantChange ctx ne.name inv) := by
  unfold diff_entity at h
  simp only [List.mem_append] at h
  rcases h with ((h | h) | h) | h
  · exact Or.inl (mem_if_singleton h)
  · rcases reconcile_triv_cases h with h | h
    · exact Or.inr (Or.inl h)
    · exact Or.inr (Or.inr (Or.inl h))
  · rw [List.mem_filterMap] at h
    rcases h with ⟨nf, hnf, heq⟩
    cases hf : oe.fields.find? (fun o => nameMatch Field.name o nf) with
    | none =>
      rw [hf] at heq
      cases heq
    | some of_ =>
      rw [hf] at heq
      have heq' : (if (of_.field_type != nf.field_type) = true
          then some (fieldTypeModifiedChange ctx ne.name of_ nf)
          else none) = some c := heq
      by_cases hcond : (of_.field_type != nf.field_type) = true
      · rw [if_pos hcond] at heq'
        exact Or.inr (Or.inr (Or.inr (Or.inl
          ⟨of_, nf, hnf, hf, hcond, (Option.some.inj heq').symm⟩)))
      · rw [if_neg hcond] at heq'
        cases heq'
  · rw [List.mem_map] at h
    rcases h with ⟨inv, hi, rfl⟩
    rw [List.mem_filter] at hi
    refine Or.inr (Or.inr (Or.inr (Or.inr ⟨inv, hi.1, ?_, rfl⟩)))
    have := hi.2
    simpa using this

theorem diff_service_cases {ctx : String} {os ns : Service} {c : ModelChange}
    (h : c ∈ diff_service ctx os ns) :
    ((serviceKindDebug os.kind != serviceKindDebug ns.kind) = true ∧
      c = serviceKindModifiedChange ctx os ns) ∨
    (∃ m, m ∈ ns.methods ∧
      os.methods.find? (fun o => nameMatch Method.name o m) = none ∧
      c = addedMethodChange ctx ns.name m) ∨
    (∃ m, m ∈ os.methods ∧
      (ns.methods.any fun n => nameMatch Method.name m n) = false ∧
      c = removedMethodChange ctx ns.name m) ∨
    (∃ d, d ∈ ns.dependencies ∧
      os.dependencies.find? (fun o => nameMatch id o d) = none ∧
      c = addedServiceDepChange ctx ns.name d) ∨
    (∃ d, d ∈ os.dependencies ∧
      (ns.dependencies.any fun n => nameMatch id d n) = false ∧
      c = removedServiceDepChange ctx ns.name d) := by
  unfold diff_service at h
  simp only [List.mem_append] at h
  rcases h with (h | h) | h
  · exact Or.inl (mem_if_singleton h)
  · rcases reconcile_triv_cases h with h | h
    · exact Or.inr (Or.inl h)
    · exact Or.inr (Or.inr (Or.inl h))
  · rcases reconcile_triv_cases h with h | h
    · exact Or.inr (Or.inr (Or.inr (Or.inl h)))
    · exact Or.inr (Or.inr (Or.inr (Or.inr h)))

theorem diff_context_cases {oc nc : BoundedContext} {c : ModelChange}
    (h : c ∈ diff_context oc nc) :
    ((oc.module_path != nc.module_path && !(nc.module_path == "")) = true ∧
      c = movedContextChange oc nc) ∨
    (∃ ne, ne ∈ nc.entities ∧
      oc.entities.find? (fun o => nameMatch Entity.name o ne) = none ∧
      c = addedEntityChange nc.name ne) ∨
    (∃ oe ne, ne ∈ nc.entities ∧
      oc.entities.find? (fun o => nameMatch Entity.name o ne) = some oe ∧
      c ∈ diff_entity nc.name oe ne) ∨
    (∃ oe, oe ∈ oc.entities ∧
      (nc.entities.any fun n => nameMatch Entity.name oe n) = false ∧
      c = removedEntityChange nc.name oe) ∨
    (∃ ns, ns ∈ nc.services ∧
      oc.services.find? (fun o => nameMatch Service.name o ns) = none ∧
      c = addedServiceChange nc.name ns) ∨
    (∃ os ns, ns ∈ nc.services ∧
      oc.services.find? (fun o => nameMatch Service.name o ns) = some os ∧
      c ∈ diff_service nc.name os ns) ∨
    (∃ os, os ∈ oc.services ∧
      (nc.services.any fun n => nameMatch Service.name os n) = false ∧
      c = removedServiceChange nc.name os) ∨
    (∃ ev, ev ∈ nc.events ∧
      oc.events.find? (fun o => nameMatch DomainEvent.name o ev) = none ∧
      c = addedEventChange nc.name ev) ∨
    (∃ ev, ev ∈ oc.events ∧
      (nc.events.any fun n => nameMatch DomainEvent.name ev n) = false ∧
      c = removedEventChange nc.name ev) ∨
    (∃ vo, vo ∈ nc.value_objects ∧
      oc.value_objects.find? (fun o => nameMatch ValueObject.name o vo) = none ∧
      c = addedValueObjectChange nc.name vo) ∨
    (∃ vo, vo ∈ oc.value_objects ∧
      (nc.value_objects.any fun n => nameMatch ValueObject.name vo n) = false ∧
      c = removedValueObjectChange nc.name vo) ∨
    (∃ rp, rp ∈ nc.repositories ∧
      oc.repositories.find? (fun o => nameMatch Repository.name o rp) = none ∧
      c = addedRepositoryChange nc.name rp) ∨
    (∃ rp, rp ∈ oc.repositories ∧
      (nc.repositories.any fun n => nameMatch Repository.name rp n) = false ∧
      c = removedRepositoryChange nc.name rp) ∨
    (∃ d, d ∈ nc.dependencies ∧
      oc.dependencies.find? (fun o => nameMatch id o d) = none ∧
      c = addedDependencyChange nc.name d) ∨
    (∃ d, d ∈ oc.dependencies ∧
      (nc.dependencies.any fun n => nameMatch id d n) = false ∧
      c = removedDependencyChange nc.name d) := by
  unfold diff_context at h
  simp only [List.mem_append] at h
  rcases h with (((((h | h) | h) | h) | h) | h) | h
  · exact Or.inl (mem_if_singleton h)
  · rcases reconcile_cases h with h | h | h
    · exact Or.inr (Or.inl h)
    · exact Or.inr (Or.inr (Or.inl h))
    · exact Or.inr (Or.inr (Or.inr (Or.inl h)))
  · rcases reconcile_cases h with h | h | h
    · exact Or.inr (Or.inr (Or.inr (Or.inr (Or.inl h))))
    · exact Or.inr (Or.inr (Or.inr (Or.inr (Or.inr (Or.inl h)))))
    · exact Or.inr (Or.inr (Or.inr (Or.inr (Or.inr (Or.inr (Or.inl h))))))
  · rcases reconcile_triv_cases h with h | h
    · exact Or.inr (Or.inr (Or.inr (Or.inr (Or.inr (Or.inr (Or.inr
        (Or.inl h)))))))
    · exact Or.inr (Or.inr (Or.inr (Or.inr (Or.inr (Or.inr (Or.inr
        (Or.inr (Or.inl h))))))))
  · rcases reconcile_triv_cases h with h | h
    · exact Or.inr (Or.inr (Or.inr (Or.inr (Or.inr (Or.inr (Or.inr
        (Or.inr (Or.inr (Or.inl h)))))))))
    · exact Or.inr (Or.inr (Or.inr (Or.inr (Or.inr (Or.inr (Or.inr
        (Or.inr (Or.inr (Or.inr (Or.inl h))))))))))
  · rcases reconcile_triv_cases h with h | h
    · exact Or.inr (Or.inr (Or.inr (Or.inr (Or.inr (Or.inr (Or.inr
        (Or.inr (Or.inr (Or.inr (Or.inr (Or.inl h)))))))))))
    · exact Or.inr (Or.inr (Or.inr (Or.inr (Or.inr (Or.inr (Or.inr
        (Or.inr (Or.inr (Or.inr (Or.inr (Or.inr (Or.inl h))))))))))))
  · rcases reconcile_triv_cases h with h | h
    · exact Or.inr (Or.inr (Or.inr (Or.inr (Or.inr (Or.inr (Or.inr
        (Or.inr (Or.inr (Or.inr (Or.inr (Or.inr (Or.inr (Or.inl h)))))))))))))
    · exact Or.inr (Or.inr (Or.inr (Or.inr (Or.inr (Or.inr (Or.inr
        (Or.inr (Or.inr (Or.inr (Or.inr (Or.inr (Or.inr (Or.inr h)))))))))))))

theorem diff_models_cases {A B : DomainModel} {c : ModelChange}
    (h : c ∈ diff_models A B) :
    (∃ nc, nc ∈ B.bounded_contexts ∧
      A.bounded_contexts.find?
        (fun o => nameMatch BoundedContext.name o nc) = none ∧
      c = addedContextChange nc) ∨
    (∃ oc nc, matchedCtx A B oc nc ∧ c ∈ diff_context oc nc) ∨
    (∃ oc, oc ∈ A.bounded_contexts ∧
      (B.bounded_contexts.any
        fun n => nameMatch BoundedContext.name oc n) = false ∧
      c = removedContextChange oc) ∨
    (∃ nr, nr ∈ B.rules ∧ A.rules.find? (fun o => idMatch o nr) = none ∧
      c = addedRuleChange nr) ∨
    (∃ r, r ∈ A.rules ∧ (B.rules.any fun n => idMatch r n) = false ∧
      c = removedRuleChange r) ∨
    (∃ or_ nr, nr ∈ B.rules ∧
      A.rules.find? (fun o => idMatch o nr) = some or_ ∧
      (or_.description != nr.description ||
        severityDebug or_.severity != severityDebug nr.severity) = true ∧
      c = modifiedRuleChange or_ nr) := by
  unfold diff_models at h
  simp only [List.mem_append] at h
  rcases h with (h | h) | h
  · rcases reconcile_cases h with h | h | h
    · exact Or.inl h
    · rcases h with ⟨oc, nc, hnc, hf, hc⟩
      exact Or.inr (Or.inl ⟨oc, nc, ⟨hnc, hf⟩, hc⟩)
    · exact Or.inr (Or.inr (Or.inl h))
  · rcases reconcile_triv_cases h with h | h
    · exact Or.inr (Or.inr (Or.inr (Or.inl h)))
    · exact Or.inr (Or.inr (Or.inr (Or.inr (Or.inl h))))
  · rw [List.mem_filterMap] at h
    rcases h with ⟨nr, hnr, heq⟩
    cases hf : A.rules.find? (fun o => idMatch o nr) with
    | none =>
      rw [hf] at heq
      cases heq
    | some or_ =>
      rw [hf] at heq
      have heq' : (if (or_.description != nr.description ||
          severityDebug or_.severity != severityDebug nr.severity) = true
          then some (modifiedRuleChange or_ nr) else none) = some c := heq
      by_cases hcond : (or_.description != nr.description ||
          severityDebug or_.severity != severityDebug nr.severity) = true
      · rw [if_pos hcond] at heq'
        exact Or.inr (Or.inr (Or.inr (Or.inr (Or.inr
          ⟨or_, nr, hnr, hf, hcond, (Option.some.inj heq').symm⟩))))
      · rw [if_neg hcond] at heq'
        cases heq'

/-! ### Mirror lemmas: every `Removed` change of `diff(A,B)` has an `Added`
counterpart in `diff(B,A)` at the case-insensitively identical logical path,
and every `Added` change has a `Removed` counterpart except for invariant
additions (invariant removal is not detected). -/

theorem removed_mirror {A B : DomainModel} (hB : wfModel B = true)
    {c : ModelChange} (hm : c ∈ diff_models A B)
    (hk : c.kind = ChangeKind.Removed) :
    ∃ c', c' ∈ diff_models B A ∧ c'.kind = ChangeKind.Added ∧
      ascii_lower c'.path = ascii_lower c.path := by
  rcases diff_models_cases hm with h | h | h | h | h | h
  · rcases h with ⟨nc, _, _, rfl⟩
    simp [addedContextChange] at hk
  · rcases h with ⟨oc, nc, hmc, hc⟩
    have hmc' := matchedCtx_symm hB hmc
    have heq0 := List.find?_some (p := fun o => nameMatch BoundedContext.name o nc) hmc.2
    have heq : eq_ignore_ascii_case oc.name nc.name = true := heq0
    have hwfnc : wfContext nc = true := wfModel_wfContext hB hmc.1
    rcases diff_context_cases hc with h | h | h | h | h | h | h | h | h | h | h | h | h | h | h
    · rcases h with ⟨_, rfl⟩
      simp [movedContextChange] at hk
    · rcases h with ⟨ne, _, _, rfl⟩
      simp [addedEntityChange] at hk
    · -- matched entity pair
      rcases h with ⟨oe, ne, hne, hfent, hce⟩
      have hoem : oe ∈ oc.entities := List.mem_of_find?_eq_some hfent
      have heqe0 := List.find?_some (p := fun o => nameMatch Entity.name o ne) hfent
      have heqe : eq_ignore_ascii_case oe.name ne.name = true := heqe0
      have hrevent : nc.entities.find? (fun o => nameMatch Entity.name o oe) = some ne :=
        find?_nameMatch_eq_some Entity.name (wfContext_distinctEnt hwfnc) hne
          (eqIC_symm heqe)
      rcases diff_entity_cases hce with h | h | h | h | h
      · rcases h with ⟨_, rfl⟩
        simp [aggRootModifiedChange] at hk
      · rcases h with ⟨f, _, _, rfl⟩
        simp [addedFieldChange] at hk
      · rcases h with ⟨f, hfm, hany, rfl⟩
        refine ⟨addedFieldChange oc.name oe.name f, ?_,
          by simp [addedFieldChange], ?_⟩
        · exact mem_dm_of_ctx hmc' (mem_dc_ent (mem_reconcile_deep hoem hrevent
            (mem_de_fields (mem_reconcile_added hfm
              (any_false_to_find?_none hany)))))
        · show ascii_lower (oc.name ++ "." ++ oe.name ++ ".fields." ++ f.name) =
            ascii_lower (nc.name ++ "." ++ ne.name ++ ".fields." ++ f.name)
          exact lower_path2 heq heqe _ _ _
      · rcases h with ⟨of_, nf, _, _, _, rfl⟩
        simp [fieldTypeModifiedChange] at hk
      · rcases h with ⟨inv, _, _, rfl⟩
        simp [addedInvariantChange] at hk
    · rcases h with ⟨oe, hoe, hany, rfl⟩
      refine ⟨addedEntityChange oc.name oe, ?_, by simp [addedEntityChange], ?_⟩
      · exact mem_dm_of_ctx hmc' (mem_dc_ent (mem_reconcile_added hoe
          (any_false_to_find?_none hany)))
      · show ascii_lower (oc.name ++ ".entities." ++ oe.name) =
          ascii_lower (nc.name ++ ".entities." ++ oe.name)
        exact lower_path1 heq _ _
    · rcases h with ⟨ns, _, _, rfl⟩
      simp [addedServiceChange] at hk
    · -- matched service pair
      rcases h with ⟨os, ns, hns, hfsvc, hcs⟩
      have hosm : os ∈ oc.services := List.mem_of_find?_eq_some hfsvc
      have heqs0 := List.find?_some (p := fun o => nameMatch Service.name o ns) hfsvc
      have heqs : eq_ignore_ascii_case os.name ns.name = true := heqs0
      have hrevsvc : nc.services.find? (fun o => nameMatch Service.name o os) = some ns :=
        find?_nameMatch_eq_some Service.name (wfContext_distinctSvc hwfnc) hns
          (eqIC_symm heqs)
      rcases diff_service_cases hcs with h | h | h | h | h
      · rcases h with ⟨_, rfl⟩
        simp [serviceKindModifiedChange] at hk
      · rcases h with ⟨m, _, _, rfl⟩
        simp [addedMethodChange] at hk
      · rcases h with ⟨m, hmm, hany, rfl⟩
        refine ⟨addedMethodChange oc.name os.name m, ?_,
          by simp [addedMethodChange], ?_⟩
        · exact mem_dm_of_ctx hmc' (mem_dc_svc (mem_reconcile_deep hosm hrevsvc
            (mem_ds_methods (mem_reconcile_added hmm
              (any_false_to_find?_none hany)))))
        · show ascii_lower (oc.name ++ ".services." ++ os.name ++ ".methods." ++ m.name) =
            ascii_lower (nc.name ++ ".services." ++ ns.name ++ ".methods." ++ m.name)
          exact lower_path2 heq heqs _ _ _
      · rcases h with ⟨d, _, _, rfl⟩
        simp [addedServiceDepChange] at hk
      · rcases h with ⟨d, hdm, hany, rfl⟩
        refine ⟨addedServiceDepChange oc.name os.name d, ?_,
          by simp [addedServiceDepChange], ?_⟩
        · exact mem_dm_of_ctx hmc' (mem_dc_svc (mem_reconcile_deep hosm hrevsvc
            (mem_ds_deps (mem_reconcile_added hdm
              (any_false_to_find?_none hany)))))
        · show ascii_lower (oc.name ++ ".services." ++ os.name ++ ".dependencies." ++ d) =
            ascii_lower (nc.name ++ ".services." ++ ns.name ++ ".dependencies." ++ d)
          exact lower_path2 heq heqs _ _ _
    · rcases h with ⟨os, hos, hany, rfl⟩
      refine ⟨addedServiceChange oc.name os, ?_, by simp [addedServiceChange], ?_⟩
      · exact mem_dm_of_ctx hmc' (mem_dc_svc (mem_reconcile_added hos
          (any_false_to_find?_none hany)))
      · show ascii_lower (oc.name ++ ".services." ++ os.name) =
          ascii_lower (nc.name ++ ".services." ++ os.name)
        exact lower_path1 heq _ _
    · rcases h with ⟨ev, _, _, rfl⟩
      simp [addedEventChange] at hk
    · rcases h with ⟨ev, hev, hany, rfl⟩
      refine ⟨addedEventChange oc.name ev, ?_, by simp [addedEventChange], ?_⟩
      · exact mem_dm_of_ctx hmc' (mem_dc_ev (mem_reconcile_added hev
          (any_false_to_find?_none hany)))
      · show ascii_lower (oc.name ++ ".events." ++ ev.name) =
          ascii_lower (nc.name ++ ".events." ++ ev.name)
        exact lower_path1 heq _ _
    · rcases h with ⟨vo, _, _, rfl⟩
      simp [addedValueObjectChange] at hk
    · rcases h with ⟨vo, hvo, hany, rfl⟩
      refine ⟨addedValueObjectChange oc.name vo, ?_,
        by simp [addedValueObjectChange], ?_⟩
      · exact mem_dm_of_ctx hmc' (mem_dc_vo (mem_reconcile_added hvo
          (any_false_to_find?_none hany)))
      · show ascii_lower (oc.name ++ ".value_objects." ++ vo.name) =
          ascii_lower (nc.name ++ ".value_objects." ++ vo.name)
        exact lower_path1 heq _ _
    · rcases h with ⟨rp, _, _, rfl⟩
      simp [addedRepositoryChange] at hk
    · rcases h with ⟨rp, hrp, hany, rfl⟩
      refine ⟨addedRepositoryChange oc.name rp, ?_,
        by simp [addedRepositoryChange], ?_⟩
      · exact mem_dm_of_ctx hmc' (mem_dc_rp (mem_reconcile_added hrp
          (any_false_to_find?_none hany)))
      · show ascii_lower (oc.name ++ ".repositories." ++ rp.name) =
          ascii_lower (nc.name ++ ".repositories." ++ rp.name)
        exact lower_path1 heq _ _
    · rcases h with ⟨d, _, _, rfl⟩
      simp [addedDependencyChange] at hk
    · rcases h with ⟨d, hd, hany, rfl⟩
      refine ⟨addedDependencyChange oc.name d, ?_,
        by simp [addedDependencyChange], ?_⟩
      · exact mem_dm_of_ctx hmc' (mem_dc_dep (mem_reconcile_added hd
          (any_false_to_find?_none hany)))
      · show ascii_lower (oc.name ++ ".dependencies." ++ d) =
          ascii_lower (nc.name ++ ".dependencies." ++ d)
        exact lower_path1 heq _ _
  · rcases h with ⟨oc, hoc, hany, rfl⟩
    refine ⟨addedContextChange oc, ?_, by simp [addedContextChange], rfl⟩
    exact mem_dm_ctx_added hoc (any_false_to_find?_none hany)
  · rcases h with ⟨nr, _, _, rfl⟩
    simp [addedRuleChange] at hk
  · rcases h with ⟨r, hr, hany, rfl⟩
    refine ⟨addedRuleChange r, ?_, by simp [addedRuleChange], rfl⟩
    exact mem_dm_rule_added hr (id_any_false_to_find?_none hany)
  · rcases h with ⟨or_, nr, _, _, _, rfl⟩
    simp [modifiedRuleChange] at hk

theorem added_mirror {A B : DomainModel} (hB : wfModel B = true)
    {c : ModelChange} (hm : c ∈ diff_models A B)
    (hk : c.kind = ChangeKind.Added) :
    (∃ c', c' ∈ diff_models B A ∧ c'.kind = ChangeKind.Removed ∧
      ascii_lower c'.path = ascii_lower c.path) ∨
    (∃ nc ne inv, nc ∈ B.bounded_contexts ∧ ne ∈ nc.entities ∧
      c = addedInvariantChange nc.name ne.name inv) := by
  rcases diff_models_cases hm with h | h | h | h | h | h
  · rcases h with ⟨nc, hnc, hf, rfl⟩
    refine Or.inl ⟨removedContextChange nc, ?_,
      by simp [removedContextChange], rfl⟩
    exact mem_dm_ctx_removed hnc (find?_none_to_any_false hf)
  · rcases h with ⟨oc, nc, hmc, hc⟩
    have hmc' := matchedCtx_symm hB hmc
    have heq0 := List.find?_some (p := fun o => nameMatch BoundedContext.name o nc) hmc.2
    have heq : eq_ignore_ascii_case oc.name nc.name = true := heq0
    have hwfnc : wfContext nc = true := wfModel_wfContext hB hmc.1
    rcases diff_context_cases hc with h | h | h | h | h | h | h | h | h | h | h | h | h | h | h
    · rcases h with ⟨_, rfl⟩
      simp [movedContextChange] at hk
    · rcases h with ⟨ne, hne, hf, rfl⟩
      refine Or.inl ⟨removedEntityChange oc.name ne, ?_,
        by simp [removedEntityChange], ?_⟩
      · exact mem_dm_of_ctx hmc' (mem_dc_ent (mem_reconcile_removed hne
          (find?_none_to_any_false hf)))
      · show ascii_lower (oc.name ++ ".entities." ++ ne.name) =
          ascii_lower (nc.name ++ ".entities." ++ ne.name)
        exact lower_path1 heq _ _
    · rcases h with ⟨oe, ne, hne, hfent, hce⟩
      have hoem : oe ∈ oc.entities := List.mem_of_find?_eq_some hfent
      have heqe0 := List.find?_some (p := fun o => nameMatch Entity.name o ne) hfent
      have heqe : eq_ignore_ascii_case oe.name ne.name = true := heqe0
      have hrevent : nc.entities.find? (fun o => nameMatch Entity.name o oe) = some ne :=
        find?_nameMatch_eq_some Entity.name (wfContext_distinctEnt hwfnc) hne
          (eqIC_symm heqe)
      rcases diff_entity_cases hce with h | h | h | h | h
      · rcases h with ⟨_, rfl⟩
        simp [aggRootModifiedChange] at hk
      · rcases h with ⟨f, hfm, hf, rfl⟩
        refine Or.inl ⟨removedFieldChange oc.name oe.name f, ?_,
          by simp [removedFieldChange], ?_⟩
        · exact mem_dm_of_ctx hmc' (mem_dc_ent (mem_reconcile_deep hoem hrevent
            (mem_de_fields (mem_reconcile_removed hfm
              (find?_none_to_any_false hf)))))
        · show ascii_lower (oc.name ++ "." ++ oe.name ++ ".fields." ++ f.name) =
            ascii_lower (nc.name ++ "." ++ ne.name ++ ".fields." ++ f.name)
          exact lower_path2 heq heqe _ _ _
      · rcases h with ⟨f, _, _, rfl⟩
        simp [removedFieldChange] at hk
      · rcases h with ⟨of_, nf, _, _, _, rfl⟩
        simp [fieldTypeModifiedChange] at hk
      · rcases h with ⟨inv, _, _, rfl⟩
        exact Or.inr ⟨nc, ne, inv, hmc.1, hne, rfl⟩
    · rcases h with ⟨oe, _, _, rfl⟩
      simp [removedEntityChange] at hk
    · rcases h with ⟨ns, hns, hf, rfl⟩
      refine Or.inl ⟨removedServiceChange oc.name ns, ?_,
        by simp [removedServiceChange], ?_⟩
      · exact mem_dm_of_ctx hmc' (mem_dc_svc (mem_reconcile_removed hns
          (find?_none_to_any_false hf)))
      · show ascii_lower (oc.name ++ ".services." ++ ns.name) =
          ascii_lower (nc.name ++ ".services." ++ ns.name)
        exact lower_path1 heq _ _
    · rcases h with ⟨os, ns, hns, hfsvc, hcs⟩
      have hosm : os ∈ oc.services := List.mem_of_find?_eq_some hfsvc
      have heqs0 := List.find?_some (p := fun o => nameMatch Service.name o ns) hfsvc
      have heqs : eq_ignore_ascii_case os.name ns.name = true := heqs0
      have hrevsvc : nc.services.find? (fun o => nameMatch Service.name o os) = some ns :=
        find?_nameMatch_eq_some Service.name (wfContext_distinctSvc hwfnc) hns
          (eqIC_symm heqs)
      rcases diff_service_cases hcs with h | h | h | h | h
      · rcases h with ⟨_, rfl⟩
        simp [serviceKindModifiedChange] at hk
      · rcases h with ⟨m, hmm, hf, rfl⟩
        refine Or.inl ⟨removedMethodChange oc.name os.name m, ?_,
          by simp [removedMethodChange], ?_⟩
        · exact mem_dm_of_ctx hmc' (mem_dc_svc (mem_reconcile_deep hosm hrevsvc
            (mem_ds_methods (mem_reconcile_removed hmm
              (find?_none_to_any_false hf)))))
        · show ascii_lower (oc.name ++ ".services." ++ os.name ++ ".methods." ++ m.name) =
            ascii_lower (nc.name ++ ".services." ++ ns.name ++ ".methods." ++ m.name)
          exact lower_path2 heq heqs _ _ _
      · rcases h with ⟨m, _, _, rfl⟩
        simp [removedMethodChange] at hk
      · rcases h with ⟨d, hdm, hf, rfl⟩
        refine Or.inl ⟨removedServiceDepChange oc.name os.name d, ?_,
          by simp [removedServiceDepChange], ?_⟩
        · exact mem_dm_of_ctx hmc' (mem_dc_svc (mem_reconcile_deep hosm hrevsvc
            (mem_ds_deps (mem_reconcile_removed hdm
              (find?_none_to_any_false hf)))))
        · show ascii_lower (oc.name ++ ".services." ++ os.name ++ ".dependencies." ++ d) =
            ascii_lower (nc.name ++ ".services." ++ ns.name ++ ".dependencies." ++ d)
          exact lower_path2 heq heqs _ _ _
      · rcases h with ⟨d, _, _, rfl⟩
        simp [removedServiceDepChange] at hk
    · rcases h with ⟨os, _, _, rfl⟩
      simp [removedServiceChange] at hk
    · rcases h with ⟨ev, hev, hf, rfl⟩
      refine Or.inl ⟨removedEventChange oc.name ev, ?_,
        by simp [removedEventChange], ?_⟩
      · exact mem_dm_of_ctx hmc' (mem_dc_ev (mem_reconcile_removed hev
          (find?_none_to_any_false hf)))
      · show ascii_lower (oc.name ++ ".events." ++ ev.name) =
          ascii_lower (nc.name ++ ".events." ++ ev.name)
        exact lower_path1 heq _ _
    · rcases h with ⟨ev, _, _, rfl⟩
      simp [removedEventChange] at hk
    · rcases h with ⟨vo, hvo, hf, rfl⟩
      refine Or.inl ⟨removedValueObjectChange oc.name vo, ?_,
        by simp [removedValueObjectChange], ?_⟩
      · exact mem_dm_of_ctx hmc' (mem_dc_vo (mem_reconcile_removed hvo
          (find?_none_to_any_false hf)))
      · show ascii_lower (oc.name ++ ".value_objects." ++ vo.name) =
          ascii_lower (nc.name ++ ".value_objects." ++ vo.name)
        exact lower_path1 heq _ _
    · rcases h with ⟨vo, _, _, rfl⟩
      simp [removedValueObjectChange] at hk
    · rcases h with ⟨rp, hrp, hf, rfl⟩
      refine Or.inl ⟨removedRepositoryChange oc.name rp, ?_,
        by simp [removedRepositoryChange], ?_⟩
      · exact mem_dm_of_ctx hmc' (mem_dc_rp (mem_reconcile_removed hrp
          (find?_none_to_any_false hf)))
      · show ascii_lower (oc.name ++ ".repositories." ++ rp.name) =
          ascii_lower (nc.name ++ ".repositories." ++ rp.name)
        exact lower_path1 heq _ _
    · rcases h with ⟨rp, _, _, rfl⟩
      simp [removedRepositoryChange] at hk
    · rcases h with ⟨d, hd, hf, rfl⟩
      refine Or.inl ⟨removedDependencyChange oc.name d, ?_,
        by simp [removedDependencyChange], ?_⟩
      · exact mem_dm_of_ctx hmc' (mem_dc_dep (mem_reconcile_removed hd
          (find?_none_to_any_false hf)))
      · show ascii_lower (oc.name ++ ".dependencies." ++ d) =
          ascii_lower (nc.name ++ ".dependencies." ++ d)
        exact lower_path1 heq _ _
    · rcases h with ⟨d, _, _, rfl⟩
      simp [removedDependencyChange] at hk
  · rcases h with ⟨oc, _, _, rfl⟩
    simp [removedContextChange] at hk
  · rcases h with ⟨nr, hnr, hf, rfl⟩
    refine Or.inl ⟨removedRuleChange nr, ?_, by simp [removedRuleChange], rfl⟩
    exact mem_dm_rule_removed hnr (id_find?_none_to_any_false hf)
  · rcases h with ⟨r, _, _, rfl⟩
    simp [removedRuleChange] at hk
  · rcases h with ⟨or_, nr, _, _, _, rfl⟩
    simp [modifiedRuleChange] at hk

/-! ### Structure of `split_dot` on concatenated paths. -/

theorem splitDotL_ne_nil (l : List Char) : splitDotL l ≠ [] := by
  cases l with
  | nil => simp [splitDotL]
  | cons c t =>
    unfold splitDotL
    by_cases hc : (c == '.') = true
    · rw [if_pos hc]
      simp
    · rw [if_neg hc]
      cases h : splitDotL t <;> simp

theorem splitDotL_append (xs ys : List Char) :
    splitDotL (xs ++ '.' :: ys) = splitDotL xs ++ splitDotL ys := by
  induction xs with
  | nil => simp [splitDotL]
  | cons c t ih =>
    by_cases hc : (c == '.') = true
    · have hc' : c = '.' := beq_iff_eq.mp hc
      subst hc'
      have l1 : splitDotL ('.' :: (t ++ '.' :: ys)) =
          [] :: splitDotL (t ++ '.' :: ys) := by
        simp [splitDotL]
      have l2 : splitDotL ('.' :: t) = [] :: splitDotL t := by
        simp [splitDotL]
      rw [List.cons_append, l1, l2, ih, List.cons_append]
    · obtain ⟨s, rest, hst⟩ : ∃ s rest, splitDotL t = s :: rest := by
        cases h : splitDotL t with
        | nil => exact absurd h (splitDotL_ne_nil t)
        | cons s rest => exact ⟨s, rest, rfl⟩
      have hst2 : splitDotL (t ++ '.' :: ys) = s :: (rest ++ splitDotL ys) := by
        rw [ih, hst, List.cons_append]
      have l1 : splitDotL (c :: (t ++ '.' :: ys)) =
          (c :: s) :: (rest ++ splitDotL ys) := by
        simp only [splitDotL, hst2]
        rw [if_neg hc]
      have l2 : splitDotL (c :: t) = (c :: s) :: rest := by
        simp only [splitDotL, hst]
        rw [if_neg hc]
      rw [List.cons_append, l1, l2, List.cons_append]

theorem splitDotL_eq_single {l u : List Char} (h : splitDotL l = [u]) :
    u = l := by
  induction l generalizing u with
  | nil =>
    simp [splitDotL] at h
    exact h
  | cons c t ih =>
    by_cases hc : (c == '.') = true
    · have hc' : c = '.' := beq_iff_eq.mp hc
      subst hc'
      have l1 : splitDotL ('.' :: t) = [] :: splitDotL t := by
        simp [splitDotL]
      rw [l1] at h
      simp at h
      exact absurd h.2 (splitDotL_ne_nil t)
    · obtain ⟨s, rest, hst⟩ : ∃ s rest, splitDotL t = s :: rest := by
        cases hh : splitDotL t with
        | nil => exact absurd hh (splitDotL_ne_nil t)
        | cons s rest => exact ⟨s, rest, rfl⟩
      have l1 : splitDotL (c :: t) = (c :: s) :: rest := by
        unfold splitDotL
        rw [if_neg hc, hst]
      rw [l1] at h
      simp at h
      obtain ⟨h1, h2⟩ := h
      rw [h2] at hst
      have hts := ih hst
      rw [← h1, hts]

theorem split_dot_ne_nil (s : String) : split_dot s ≠ [] := by
  unfold split_dot
  intro h
  rw [List.map_eq_nil_iff] at h
  exact splitDotL_ne_nil s.data h

theorem split_dot_append (a b : String) :
    split_dot (a ++ "." ++ b) = split_dot a ++ split_dot b := by
  unfold split_dot
  have hdata : (a ++ "." ++ b).data = a.data ++ '.' :: b.data := by
    rw [String.data_append, String.data_append]
    show a.data ++ ['.'] ++ b.data = _
    rw [List.append_assoc, List.singleton_append]
  rw [hdata, splitDotL_append, List.map_append]

theorem split_dot_single {s u : String} (h : split_dot s = [u]) : u = s := by
  unfold split_dot at h
  cases hs : splitDotL s.data with
  | nil => exact absurd hs (splitDotL_ne_nil s.data)
  | cons x xr =>
    rw [hs] at h
    cases xr with
    | nil =>
      simp at h
      have hx : x = s.data := splitDotL_eq_single hs
      rw [← h, hx]
    | cons y yr => simp at h

theorem artifact_level_iff {p : String} :
    artifact_level p = true ↔
      ∃ x key y, split_dot p = [x, key, y] ∧
        reservedCollectionKeys.contains key = true := by
  unfold artifact_level
  cases hsp : split_dot p with
  | nil => simp
  | cons a l1 =>
    cases l1 with
    | nil => simp
    | cons b l2 =>
      cases l2 with
      | nil => simp
      | cons d l3 =>
        cases l3 with
        | nil =>
          constructor
          · intro h
            exact ⟨a, b, d, rfl, h⟩
          · rintro ⟨x, key, y, hx, hc⟩
            obtain ⟨rfl, rfl, rfl⟩ : a = x ∧ b = key ∧ d = y := by
              simpa using hx
            exact hc
        | cons e l4 => simp

/-- An invariant-addition path never has the three-segment artifact shape
unless the entity is literally named after a collection key. -/
theorem artifact_level_invariant_path {ctx ename : String}
    (h : artifact_level (ctx ++ "." ++ ename ++ ".invariants") = true) :
    reservedCollectionKeys.contains ename = true := by
  have hsplit : split_dot (ctx ++ "." ++ ename ++ ".invariants") =
      split_dot ctx ++ split_dot ename ++ ["invariants"] := by
    have h1 : ctx ++ "." ++ ename ++ ".invariants" =
        (ctx ++ "." ++ ename) ++ "." ++ "invariants" := by
      have : (".invariants" : String) = "." ++ "invariants" := by decide
      rw [this, ← String.append_assoc]
    rw [h1, split_dot_append, split_dot_append]
    rfl
  rcases artifact_level_iff.mp h with ⟨x, key, y, hx, hc⟩
  rw [hsplit] at hx
  have hlen := congrArg List.length hx
  simp only [List.length_append, List.length_cons, List.length_nil] at hlen
  have hc1 : (split_dot ctx).length ≠ 0 := by
    intro h0
    exact split_dot_ne_nil ctx (List.length_eq_zero.mp h0)
  have hc2 : (split_dot ename).length ≠ 0 := by
    intro h0
    exact split_dot_ne_nil ename (List.length_eq_zero.mp h0)
  have hl1 : (split_dot ctx).length = 1 := by omega
  have hl2 : (split_dot ename).length = 1 := by omega
  obtain ⟨cx, hcx⟩ := List.length_eq_one.mp hl1
  obtain ⟨ce, hce⟩ := List.length_eq_one.mp hl2
  rw [hcx, hce] at hx
  obtain ⟨h1, h2, h3⟩ : cx = x ∧ ce = key ∧ ("invariants" : String) = y := by
    simpa using hx
  have hke : ce = ename := split_dot_single hce
  rw [← h2, hke] at hc
  exact hc

/-! ### Sorting by priority: full sortedness and stability. -/

instance : IsTotal CodeAction planLE := ⟨fun a b => Nat.le_total _ _⟩

instance : IsTrans CodeAction planLE := ⟨fun _ _ _ => Nat.le_trans⟩

theorem filter_orderedInsert (v : Nat) (a : CodeAction) (l : List CodeAction) :
    (List.orderedInsert planLE a l).filter
      (fun x => priorityNum x.priority == v) =
    (if (priorityNum a.priority == v) = true then
      a :: l.filter (fun x => priorityNum x.priority == v)
    else l.filter (fun x => priorityNum x.priority == v)) := by
  induction l with
  | nil =>
    rw [List.orderedInsert_nil, List.filter_cons]
  | cons b t ih =>
    rw [List.orderedInsert]
    by_cases hab : planLE a b
    · rw [if_pos hab]
      by_cases hv : (priorityNum a.priority == v) = true
      · rw [if_pos hv, List.filter_cons, if_pos hv]
      · rw [if_neg hv, List.filter_cons, if_neg hv]
    · rw [if_neg hab, List.filter_cons]
      by_cases hbv : (priorityNum b.priority == v) = true
      · by_cases hv : (priorityNum a.priority == v) = true
        · exfalso
          have hva : priorityNum a.priority = v := beq_iff_eq.mp hv
          have hvb : priorityNum b.priority = v := beq_iff_eq.mp hbv
          exact hab (show priorityNum a.priority ≤ priorityNum b.priority by omega)
        · rw [if_pos hbv, ih, if_neg hv, if_neg hv, List.filter_cons, if_pos hbv]
      · by_cases hv : (priorityNum a.priority == v) = true
        · rw [if_neg hbv, ih, if_pos hv, if_pos hv, List.filter_cons, if_neg hbv]
        · rw [if_neg hbv, ih, if_neg hv, if_neg hv, List.filter_cons, if_neg hbv]

theorem filter_insertionSort (v : Nat) (l : List CodeAction) :
    (List.insertionSort planLE l).filter
      (fun x => priorityNum x.priority == v) =
    l.filter (fun x => priorityNum x.priority == v) := by
  induction l with
  | nil => rfl
  | cons a t ih =>
    rw [List.insertionSort, filter_orderedInsert, ih, List.filter_cons]

/-! ### No action the planner emits carries `Low` priority. -/

theorem change_actions_not_low {pattern : String} {layers : List String}
    {c : ModelChange} {a : CodeAction} (h : a ∈ change_actions pattern layers c) :
    (a.priority == Priority.Low) = false := by
  unfold change_actions at h
  split at h
  · -- Added
    split at h
    · split at h
      · rcases List.mem_map.mp h with ⟨x, _, rfl⟩
        rfl
      · exact absurd h (List.not_mem_nil a)
    · split at h
      · rcases List.mem_cons.mp h with rfl | h2
        · rfl
        · rw [List.mem_singleton.mp h2]
          rfl
      · split at h
        · rw [List.mem_singleton.mp h]
          rfl
        · split at h
          · rw [List.mem_singleton.mp h]
            rfl
          · split at h
            · rw [List.mem_singleton.mp h]
              rfl
            · split at h
              · rw [List.mem_singleton.mp h]
                rfl
              · exact absurd h (List.not_mem_nil a)
    · split at h
      · rw [List.mem_singleton.mp h]
        rfl
      · exact absurd h (List.not_mem_nil a)
    · exact absurd h (List.not_mem_nil a)
  · -- Removed
    split at h
    · split at h
      · rw [List.mem_singleton.mp h]
        rfl
      · exact absurd h (List.not_mem_nil a)
    · split at h
      · rw [List.mem_singleton.mp h]
        rfl
      · exact absurd h (List.not_mem_nil a)
    · exact absurd h (List.not_mem_nil a)
  · -- Modified
    split at h
    · split at h
      · rw [List.mem_singleton.mp h]
        rfl
      · exact absurd h (List.not_mem_nil a)
    · exact absurd h (List.not_mem_nil a)
  · -- Moved
    split at h
    · split at h
      · rw [List.mem_singleton.mp h]
        rfl
      · exact absurd h (List.not_mem_nil a)
    · exact absurd h (List.not_mem_nil a)

/-! ### The planner's guard conditions decide exactly which changes
contribute actions. -/

theorem change_actions_eq_nil_of_no_guard (pattern : String)
    (layers : List String) {c : ModelChange}
    (h : change_matches_guards c = false) :
    change_actions pattern layers c = [] := by
  obtain ⟨k, p, d, b, af⟩ := c
  unfold change_matches_guards at h
  unfold change_actions
  cases k
  case Added =>
    simp only at h ⊢
    cases hsp : split_dot p with
    | nil => rfl
    | cons s1 r1 =>
      cases r1 with
      | nil => rfl
      | cons s2 r2 =>
        cases r2 with
        | nil =>
          rw [hsp] at h
          have h2 : startsWithStr p "bounded_contexts." = false := h
          rw [h2]
          simp
        | cons s3 r3 =>
          cases r3 with
          | nil =>
            rw [hsp] at h
            have h2 : (containsStr p ".entities." || containsStr p ".services." ||
              containsStr p ".events." || containsStr p ".invariants" ||
              containsStr p ".dependencies.") = false := h
            simp only [Bool.or_eq_false_iff] at h2
            obtain ⟨⟨⟨⟨h3, h4⟩, h5⟩, h6⟩, h7⟩ := h2
            rw [h3, h4, h5, h6, h7]
            simp
          | cons s4 r4 =>
            cases r4 with
            | nil =>
              rw [hsp] at h
              have h2 : containsStr p ".fields." = false := h
              rw [h2]
              simp
            | cons s5 r5 => rfl
  case Removed =>
    simp only at h ⊢
    cases hsp : split_dot p with
    | nil => rfl
    | cons s1 r1 =>
      cases r1 with
      | nil => rfl
      | cons s2 r2 =>
        cases r2 with
        | nil => rfl
        | cons s3 r3 =>
          cases r3 with
          | nil =>
            rw [hsp] at h
            have h2 : containsStr p ".entities." = false := h
            rw [h2]
            simp
          | cons s4 r4 =>
            cases r4 with
            | nil =>
              rw [hsp] at h
              have h2 : containsStr p ".fields." = false := h
              rw [h2]
              simp
            | cons s5 r5 => rfl
  case Modified =>
    simp only at h ⊢
    cases hsp : split_dot p with
    | nil => rfl
    | cons s1 r1 =>
      cases r1 with
      | nil => rfl
      | cons s2 r2 =>
        cases r2 with
        | nil => rfl
        | cons s3 r3 =>
          cases r3 with
          | nil => rfl
          | cons s4 r4 =>
            cases r4 with
            | nil =>
              rw [hsp] at h
              have h2 : containsStr p ".fields." = false := h
              rw [h2]
              simp
            | cons s5 r5 => rfl
  case Moved =>
    simp only at h ⊢
    by_cases hcon : containsStr p "module_path" = true
    · rw [hcon] at h
      simp only [Bool.true_and, Bool.and_eq_false_iff] at h
      rw [if_pos hcon]
      cases hb : b with
      | none => cases af <;> rfl
      | some jb =>
        cases ha : af with
        | none => rfl
        | some ja =>
          exfalso
          rw [hb, ha] at h
          simp at h
    · have hcf : containsStr p "module_path" = false := by
        cases hx : containsStr p "module_path" with
        | false => rfl
        | true => exact absurd hx hcon
      rw [if_neg hcon]

theorem change_notes_eq_nil_of_no_guard {c : ModelChange}
    (h : change_matches_guards c = false) : change_notes c = [] := by
  obtain ⟨k, p, d, b, af⟩ := c
  unfold change_matches_guards at h
  unfold change_notes
  cases k
  case Added =>
    simp only at h ⊢
    cases hsp : split_dot p with
    | nil => rfl
    | cons s1 r1 =>
      cases r1 with
      | nil => rfl
      | cons s2 r2 =>
        cases r2 with
        | nil => rfl
        | cons s3 r3 =>
          cases r3 with
          | nil =>
            rw [hsp] at h
            have h2 : (containsStr p ".entities." || containsStr p ".services." ||
              containsStr p ".events." || containsStr p ".invariants" ||
              containsStr p ".dependencies.") = false := h
            simp only [Bool.or_eq_false_iff] at h2
            obtain ⟨⟨⟨⟨h3, h4⟩, h5⟩, h6⟩, h7⟩ := h2
            rw [h3]
            simp
          | cons s4 r4 =>
            cases r4 with
            | nil =>
              rw [hsp] at h
              have h2 : containsStr p ".fields." = false := h
              rw [h2]
              simp
            | cons s5 r5 => rfl
  case Removed =>
    simp only at h ⊢
    cases hsp : split_dot p with
    | nil => rfl
    | cons s1 r1 =>
      cases r1 with
      | nil => rfl
      | cons s2 r2 =>
        cases r2 with
        | nil => rfl
        | cons s3 r3 =>
          cases r3 with
          | nil =>
            rw [hsp] at h
            have h2 : containsStr p ".entities." = false := h
            rw [h2]
            simp
          | cons s4 r4 =>
            cases r4 with
            | nil =>
              rw [hsp] at h
              have h2 : containsStr p ".fields." = false := h
              rw [h2]
              simp
            | cons s5 r5 => rfl
  case Modified =>
    simp only at h ⊢
    cases hsp : split_dot p with
    | nil => rfl
    | cons s1 r1 =>
      cases r1 with
      | nil => rfl
      | cons s2 r2 =>
        cases r2 with
        | nil => rfl
        | cons s3 r3 =>
          cases r3 with
          | nil => rfl
          | cons s4 r4 =>
            cases r4 with
            | nil =>
              rw [hsp] at h
              have h2 : containsStr p ".fields." = false := h
              rw [h2]
              simp
            | cons s5 r5 => rfl
  case Moved => rfl

theorem flatMap_filter_guards {β : Type} (f : ModelChange → List β)
    (hf : ∀ c, change_matches_guards c = false → f c = [])
    (l : List ModelChange) :
    (l.filter change_matches_guards).flatMap f = l.flatMap f := by
  induction l with
  | nil => rfl
  | cons c t ih =>
    rw [List.filter_cons]
    by_cases hc : change_matches_guards c = true
    · rw [if_pos hc, List.flatMap_cons, List.flatMap_cons, ih]
    · have hc' : change_matches_guards c = false := by
        cases h2 : change_matches_guards c with
        | false => rfl
        | true => exact absurd h2 hc
      rw [if_neg hc, List.flatMap_cons, ih, hf c hc']
      simp

/-! ### Plan projections and the `Moved` characterization. -/

theorem plan_model_changes_eq (cs : List ModelChange) (conventions : Conventions) :
    (plan_refactoring cs conventions).model_changes = cs := rfl

theorem plan_code_actions_eq (cs : List ModelChange) (conventions : Conventions) :
    (plan_refactoring cs conventions).code_actions =
      List.insertionSort planLE (cs.flatMap
        (change_actions conventions.file_structure.pattern
          conventions.file_structure.layers)) := rfl

theorem plan_migration_notes_eq (cs : List ModelChange) (conventions : Conventions) :
    (plan_refactoring cs conventions).migration_notes =
      cs.flatMap change_notes := rfl

/-- The differ emits a `Moved` change exactly for a matched context pair whose
new module path is non-empty and differs from the old one, and that change is
the module-path move record. -/
theorem moved_characterization {A B : DomainModel} {c : ModelChange} :
    (c ∈ diff_models A B ∧ c.kind = ChangeKind.Moved) ↔
    (∃ oc nc, matchedCtx A B oc nc ∧ nc.module_path ≠ "" ∧
      oc.module_path ≠ nc.module_path ∧ c = movedContextChange oc nc) := by
  constructor
  · rintro ⟨hm, hk⟩
    rcases diff_models_cases hm with h | h | h | h | h | h
    · rcases h with ⟨nc, _, _, rfl⟩
      simp [addedContextChange] at hk
    · rcases h with ⟨oc, nc, hmc, hc⟩
      rcases diff_context_cases hc with h | h | h | h | h | h | h | h | h | h | h | h | h | h | h
      · rcases h with ⟨hcond, rfl⟩
        rw [Bool.and_eq_true] at hcond
        obtain ⟨hb1, hb2⟩ := hcond
        refine ⟨oc, nc, hmc, ?_, bne_iff_ne.mp hb1, rfl⟩
        have hb2' : (nc.module_path == "") = false := by
          cases hx : (nc.module_path == "") with
          | false => rfl
          | true => rw [hx] at hb2; cases hb2
        exact beq_eq_false_iff_ne.mp hb2'
      · rcases h with ⟨ne, _, _, rfl⟩
        simp [addedEntityChange] at hk
      · rcases h with ⟨oe, ne, _, _, hce⟩
        rcases diff_entity_cases hce with h | h | h | h | h
        · rcases h with ⟨_, rfl⟩
          simp [aggRootModifiedChange] at hk
        · rcases h with ⟨f, _, _, rfl⟩
          simp [addedFieldChange] at hk
        · rcases h with ⟨f, _, _, rfl⟩
          simp [removedFieldChange] at hk
        · rcases h with ⟨of_, nf, _, _, _, rfl⟩
          simp [fieldTypeModifiedChange] at hk
        · rcases h with ⟨inv, _, _, rfl⟩
          simp [addedInvariantChange] at hk
      · rcases h with ⟨oe, _, _, rfl⟩
        simp [removedEntityChange] at hk
      · rcases h with ⟨ns, _, _, rfl⟩
        simp [addedServiceChange] at hk
      · rcases h with ⟨os, ns, _, _, hcs⟩
        rcases diff_service_cases hcs with h | h | h | h | h
        · rcases h with ⟨_, rfl⟩
          simp [serviceKindModifiedChange] at hk
        · rcases h with ⟨m, _, _, rfl⟩
          simp [addedMethodChange] at hk
        · rcases h with ⟨m, _, _, rfl⟩
          simp [removedMethodChange] at hk
        · rcases h with ⟨d, _, _, rfl⟩
          simp [addedServiceDepChange] at hk
        · rcases h with ⟨d, _, _, rfl⟩
          simp [removedServiceDepChange] at hk
      · rcases h with ⟨os, _, _, rfl⟩
        simp [removedServiceChange] at hk
      · rcases h with ⟨ev, _, _, rfl⟩
        simp [addedEventChange] at hk
      · rcases h with ⟨ev, _, _, rfl⟩
        simp [removedEventChange] at hk
      · rcases h with ⟨vo, _, _, rfl⟩
        simp [addedValueObjectChange] at hk
      · rcases h with ⟨vo, _, _, rfl⟩
        simp [removedValueObjectChange] at hk
      · rcases h with ⟨rp, _, _, rfl⟩
        simp [addedRepositoryChange] at hk
      · rcases h with ⟨rp, _, _, rfl⟩
        simp [removedRepositoryChange] at hk
      · rcases h with ⟨d, _, _, rfl⟩
        simp [addedDependencyChange] at hk
      · rcases h with ⟨d, _, _, rfl⟩
        simp [removedDependencyChange] at hk
    · rcases h with ⟨oc, _, _, rfl⟩
      simp [removedContextChange] at hk
    · rcases h with ⟨nr, _, _, rfl⟩
      simp [addedRuleChange] at hk
    · rcases h with ⟨r, _, _, rfl⟩
      simp [removedRuleChange] at hk
    · rcases h with ⟨or_, nr, _, _, _, rfl⟩
      simp [modifiedRuleChange] at hk
  · rintro ⟨oc, nc, hmc, hne, hnee, rfl⟩
    refine ⟨?_, rfl⟩
    apply mem_dm_of_ctx hmc
    unfold diff_context
    simp only [List.mem_append]
    left; left; left; left; left; left
    rw [if_pos ?hcond]
    case hcond =>
      rw [Bool.and_eq_true]
      exact ⟨bne_iff_ne.mpr hnee, by rw [beq_eq_false_iff_ne.mpr hne]; rfl⟩
    exact List.mem_singleton.mpr rfl

/-! ### Claim theorems. -/

/-- C1: Symmetry of kind.  For every pair of valid models (identity keys
pairwise distinct, per the data model of section 3, and no entity named after
a collection key, so that three-segment logical paths are unambiguous): if
`diff(A,B)` reports a `Removed` change at an entity/service/event/
value-object/repository/dependency-level path, then `diff(B,A)` reports an
`Added` change at the case-insensitively same logical path, and vice versa
(identity, hence the logical path, is case-insensitive throughout the
differ). -/
theorem c1_symmetry_of_kind (A B : DomainModel) (hA : wfModel A = true)
    (hB : wfModel B = true) (hAn : wfEntityNames A = true)
    (hBn : wfEntityNames B = true) :
    (∀ c, c ∈ diff_models A B → c.kind = ChangeKind.Removed →
      artifact_level c.path = true →
      ∃ c', c' ∈ diff_models B A ∧ c'.kind = ChangeKind.Added ∧
        ascii_lower c'.path = ascii_lower c.path) ∧
    (∀ c, c ∈ diff_models A B → c.kind = ChangeKind.Added →
      artifact_level c.path = true →
      ∃ c', c' ∈ diff_models B A ∧ c'.kind = ChangeKind.Removed ∧
        ascii_lower c'.path = ascii_lower c.path) := by
  constructor
  · intro c hm hk _
    exact removed_mirror hB hm hk
  · intro c hm hk hart
    rcases added_mirror hB hm hk with h | h
    · exact h
    · exfalso
      rcases h with ⟨nc, ne, inv, hnc, hne, rfl⟩
      have hcont : reservedCollectionKeys.contains ne.name = true :=
        artifact_level_invariant_path hart
      have hBn' : reservedCollectionKeys.contains ne.name = false := by
        unfold wfEntityNames at hBn
        simp only [List.all_eq_true] at hBn
        have := hBn nc hnc ne hne
        simpa using this
      rw [hBn'] at hcont
      cases hcont

/-- C1 witness: in the removed-entity scenario, `diff(baseModel, noUserModel)`
reports `Removed` at `Identity.entities.User`, and applying the symmetry
theorem produces the matching `Added` change of the reverse diff. -/
theorem c1_witness :
    ∃ c', c' ∈ diff_models noUserModel baseModel ∧
      c'.kind = ChangeKind.Added ∧
      ascii_lower c'.path =
        ascii_lower (removedEntityChange "Identity" userEntity).path := by
  have hmem : removedEntityChange "Identity" userEntity ∈
      diff_models baseModel noUserModel := by
    have h : diff_models baseModel noUserModel =
        [removedEntityChange "Identity" userEntity] := rfl
    rw [h]
    exact List.mem_singleton.mpr rfl
  exact (c1_symmetry_of_kind baseModel noUserModel (by decide) (by decide)
    (by decide) (by decide)).1 _ hmem rfl (by decide)

/-- C2: Reflexivity.  `diff(M, M)` is empty for every valid model `M`
(identity keys pairwise distinct per collection, per section 3). -/
theorem c2_reflexivity (M : DomainModel) (h : wfModel M = true) :
    diff_models M M = [] :=
  diff_models_shrink h (invShrinkModel_refl M)

/-- C2 witness: the reflexivity theorem applied to the concrete base model. -/
theorem c2_witness : wfModel baseModel = true ∧
    diff_models baseModel baseModel = [] :=
  ⟨by decide, c2_reflexivity baseModel (by decide)⟩

/-- C3: New-entity scenario.  Adding entity `Role` (no fields) to `Identity`
produces exactly one `Added` change whose path contains `Role`; planning with
pattern `src/{context}/{layer}/{type}.rs` and layers `[domain, application]`
yields a `CreateFile` at `src/identity/domain/role.rs` with priority `High`
plus an `AddTest`, and the only migration note is the new-entity note, which
does not mention ALTER TABLE. -/
theorem c3_new_entity_scenario :
    (diff_models baseModel newEntityModel).map
      (fun c => (c.kind, containsStr c.path "Role")) =
      [(ChangeKind.Added, true)] ∧
    ((plan_refactoring (diff_models baseModel newEntityModel)
        baseConventions).code_actions.map
      (fun a => (a.action, a.file_path, a.priority))) =
      [(ActionKind.CreateFile, "src/identity/domain/role.rs", Priority.High),
       (ActionKind.AddTest, "src/identity/domain/role.rs", Priority.Medium)] ∧
    (plan_refactoring (diff_models baseModel newEntityModel)
        baseConventions).migration_notes.map
      (fun n => (containsStr n "ALTER TABLE", containsStr n "New entity")) =
      [(false, true)] :=
  ⟨rfl, rfl, rfl⟩

/-- C4: Priority ordering invariant.  For every change sequence and
conventions the produced `code_actions` list is sorted by ascending numeric
priority (Critical < High < Medium < Low), i.e. pairwise
`priorityNum (actions i) ≤ priorityNum (actions j)` for `i < j`, and it is a
stable sort: for each priority value the sub-list of actions of that priority
equals the corresponding sub-list of the unsorted change-traversal
accumulation. -/
theorem c4_priority_sorted_stable (cs : List ModelChange)
    (conventions : Conventions) :
    List.Pairwise planLE (plan_refactoring cs conventions).code_actions ∧
    ∀ v : Nat,
      (plan_refactoring cs conventions).code_actions.filter
        (fun a => priorityNum a.priority == v) =
      (cs.flatMap (change_actions conventions.file_structure.pattern
        conventions.file_structure.layers)).filter
        (fun a => priorityNum a.priority == v) := by
  constructor
  · rw [plan_code_actions_eq]
    exact List.sorted_insertionSort planLE _
  · intro v
    rw [plan_code_actions_eq, filter_insertionSort]

/-- C5: Context move.  The differ emits a `Moved` change exactly for a
matched context pair with a non-empty, different new `module_path`, at path
`{context}.module_path` with `before`/`after` holding the old and new paths;
in the concrete scenario (`src/identity` → `src/auth`) the diff is exactly
one such `Moved` change and the plan is exactly one `MoveFile` action at
`Critical` priority with file path `src/identity`. -/
theorem c5_context_move :
    (∀ (A B : DomainModel) (c : ModelChange),
      (c ∈ diff_models A B ∧ c.kind = ChangeKind.Moved) ↔
      (∃ oc nc, matchedCtx A B oc nc ∧ nc.module_path ≠ "" ∧
        oc.module_path ≠ nc.module_path ∧ c = movedContextChange oc nc)) ∧
    (diff_models baseModel movedModel).map
      (fun c => (c.kind, c.path, c.before, c.after)) =
      [(ChangeKind.Moved, "Identity.module_path",
        some (Json.str "src/identity"), some (Json.str "src/auth"))] ∧
    ((plan_refactoring (diff_models baseModel movedModel)
        baseConventions).code_actions.map
      (fun a => (a.action, a.file_path, a.priority))) =
      [(ActionKind.MoveFile, "src/identity", Priority.Critical)] :=
  ⟨fun _ _ _ => moved_characterization, rfl, rfl⟩

/-- C5 witness: the characterization applied to the concrete moved model. -/
theorem c5_witness :
    movedContextChange identityCtx movedIdentityCtx ∈
      diff_models baseModel movedModel ∧
    (movedContextChange identityCtx movedIdentityCtx).kind =
      ChangeKind.Moved :=
  (c5_context_move.1 baseModel movedModel _).mpr
    ⟨identityCtx, movedIdentityCtx,
      ⟨List.mem_singleton.mpr rfl, rfl⟩, by decide, by decide, rfl⟩

/-- C6: Field-type-change scenario.  Changing `User.id` from `UserId` to
`Uuid` yields exactly one `Modified` change at `Identity.User.fields.id`
(a path ending in `fields.id`), and the plan is one `ModifyFile` action at
`Critical` priority with one migration note containing "data migration". -/
theorem c6_field_type_change_scenario :
    (diff_models baseModel typeChangedModel).map (fun c => (c.kind, c.path)) =
      [(ChangeKind.Modified, "Identity.User.fields.id")] ∧
    containsStr "Identity.User.fields.id" "fields.id" = true ∧
    ((plan_refactoring (diff_models baseModel typeChangedModel)
        baseConventions).code_actions.map
      (fun a => (a.action, a.file_path, a.priority))) =
      [(ActionKind.ModifyFile, "src/identity/domain/user.rs",
        Priority.Critical)] ∧
    (plan_refactoring (diff_models baseModel typeChangedModel)
        baseConventions).migration_notes.map
      (fun n => containsStr n "data migration") = [true] :=
  ⟨rfl, rfl, rfl, rfl⟩

/-- C7: Asymmetric invariant diffing.  For matched entities, every invariant
string present in the new entity and absent (exact match) from the old one is
reported as `Added`; and a model that only drops invariants (each new
invariant list contains only strings the old one had, everything else
identical) diffs to the empty change sequence, so invariant removal is never
detected. -/
theorem c7_asymmetric_invariants :
    (∀ (A B : DomainModel) (oc nc : BoundedContext) (oe ne : Entity)
      (inv : String),
      matchedCtx A B oc nc → ne ∈ nc.entities →
      oc.entities.find? (fun o => nameMatch Entity.name o ne) = some oe →
      inv ∈ ne.invariants → (oe.invariants.any fun i => i == inv) = false →
      addedInvariantChange nc.name ne.name inv ∈ diff_models A B) ∧
    (∀ (A B : DomainModel), wfModel A = true → invShrinkModel A B →
      diff_models A B = []) := by
  constructor
  · intro A B oc nc oe ne inv hmc hne hf hinv hnotin
    apply mem_dm_of_ctx hmc
    apply mem_dc_ent
    apply mem_reconcile_deep hne hf
    unfold diff_entity
    simp only [List.mem_append]
    right
    rw [List.mem_map]
    exact ⟨inv, List.mem_filter.mpr ⟨hinv, by simp [hnotin]⟩, rfl⟩
  · exact fun A B h hr => diff_models_shrink h hr

/-- C7 witness: adding the invariant to `User` is reported, and removing it
again diffs to nothing. -/
theorem c7_witness :
    addedInvariantChange "Identity" "User" "email is unique" ∈
      diff_models baseModel invModel ∧
    diff_models invModel baseModel = [] := by
  constructor
  · exact c7_asymmetric_invariants.1 baseModel invModel identityCtx
      invIdentityCtx userEntity invUserEntity "email is unique"
      ⟨List.mem_singleton.mpr rfl, rfl⟩ (List.mem_singleton.mpr rfl) rfl
      (List.mem_singleton.mpr rfl) rfl
  · apply c7_asymmetric_invariants.2 invModel baseModel (by decide)
    refine ⟨rfl, rfl, ?_, rfl, rfl, rfl⟩
    refine List.Forall₂.cons ?_ List.Forall₂.nil
    refine ⟨rfl, rfl, rfl, ?_, rfl, rfl, rfl, rfl, rfl⟩
    refine List.Forall₂.cons ?_ List.Forall₂.nil
    exact ⟨rfl, rfl, rfl, rfl, rfl,
      fun inv hi => absurd hi (List.not_mem_nil inv)⟩

/-- C8 counterexample: a `Moved` change whose path merely contains
`module_path` as a substring matches none of the classification table's
(kind, path-shape) pairs, yet the planner still emits a `MoveFile` action
for it — so "any change whose (kind, path-shape) pair does not match one of
the classification-table shapes contributes no code action" is false as
stated. -/
theorem c8_counterexample :
    table_shape_spec strayMovedChange = false ∧
    ((plan_refactoring [strayMovedChange] baseConventions).code_actions.map
      (fun a => a.action)) = [ActionKind.MoveFile] :=
  ⟨rfl, rfl⟩

/-- C8 (amended): the planner is total — it echoes its input changes and its
outputs are exactly the per-change accumulations — and any change that fails
the planner's guard conditions (segment-count patterns combined with
substring containment, and presence of `before`/`after` for `Moved`)
contributes no code action and no migration note; dropping all such changes
leaves the plan unchanged. -/
theorem c8_silent_drop_totality :
    (∀ (cs : List ModelChange) (conventions : Conventions),
      (plan_refactoring cs conventions).model_changes = cs ∧
      (plan_refactoring cs conventions).code_actions =
        List.insertionSort planLE ((cs.filter change_matches_guards).flatMap
          (change_actions conventions.file_structure.pattern
            conventions.file_structure.layers)) ∧
      (plan_refactoring cs conventions).migration_notes =
        (cs.filter change_matches_guards).flatMap change_notes) ∧
    (∀ (pattern : String) (layers : List String) (c : ModelChange),
      change_matches_guards c = false →
      change_actions pattern layers c = [] ∧ change_notes c = []) := by
  constructor
  · intro cs conv
    refine ⟨rfl, ?_, ?_⟩
    · rw [plan_code_actions_eq,
        flatMap_filter_guards _ (fun c h => change_actions_eq_nil_of_no_guard _ _ h)]
    · rw [plan_migration_notes_eq,
        flatMap_filter_guards _ (fun c h => change_notes_eq_nil_of_no_guard h)]
  · exact fun pattern layers c h =>
      ⟨change_actions_eq_nil_of_no_guard pattern layers h,
       change_notes_eq_nil_of_no_guard h⟩

/-- C8 witness: the silent-drop theorem applied to a concrete unmatched
change. -/
theorem c8_witness :
    change_matches_guards unmatchedAddedChange = false ∧
    change_actions "src/{context}/{layer}/{type}.rs" ["domain"]
      unmatchedAddedChange = [] :=
  ⟨by decide, (c8_silent_drop_totality.2 "src/{context}/{layer}/{type}.rs"
    ["domain"] unmatchedAddedChange (by decide)).1⟩

/-- C9: Name normalization.  `to_snake` maps the five specification examples
as stated (and the empty string to itself; the Lean embedding is a total
function by construction, mirroring the panic-free Rust source). -/
theorem c9_to_snake :
    to_snake "UserService" = "user_service" ∧
    to_snake "UserID" = "user_id" ∧
    to_snake "HTMLParser" = "html_parser" ∧
    to_snake "getHTTPResponse" = "get_http_response" ∧
    to_snake "already_snake" = "already_snake" ∧
    to_snake "" = "" :=
  ⟨rfl, rfl, rfl, rfl, rfl, rfl⟩

/-- C10: the planner never emits an action with `Low` priority, for any
change sequence and conventions, although `Low` exists in the `Priority`
type and participates in the sort order. -/
theorem c10_no_low_priority (cs : List ModelChange)
    (conventions : Conventions) :
    ((plan_refactoring cs conventions).code_actions.all
      fun a => !(a.priority == Priority.Low)) = true := by
  rw [plan_code_actions_eq, List.all_eq_true]
  intro a ha
  rw [List.mem_insertionSort] at ha
  rcases List.mem_flatMap.mp ha with ⟨c, _, hac⟩
  rw [change_actions_not_low hac]
  rfl

end Domcp
